import Mathlib

/-!
Shallow embedding of `src/librustc_resolve/late/diagnostics.rs`, the
unresolved-reference diagnosis engine of the resolver, together with proofs
about its behaviour.  Pure data (paths, spans, resolutions, ribs, modules)
becomes Lean structures; the side-effecting `DiagnosticBuilder` becomes an
explicit state value; external collaborators of this file (the resolver core,
the source map, the session) become explicitly passed read-only inputs.
Source line numbers in comments refer to `diagnostics.rs`.
-/

namespace Resolve

/-- A source span: byte offsets `[lo, hi)` into the source text, plus the
`from_expansion` flag of its hygiene context (the only part of the context
this file inspects). -/
structure Span where
  lo : Nat
  hi : Nat
  expn : Bool
deriving DecidableEq

/-- Source `Span::shrink_to_lo`. -/
def Span.shrinkToLo (s : Span) : Span := ⟨s.lo, s.lo, s.expn⟩

/-- Source `Span::shrink_to_hi`. -/
def Span.shrinkToHi (s : Span) : Span := ⟨s.hi, s.hi, s.expn⟩

/-- Source `Span::to`: from the start of `a` to the end of `b`. -/
def Span.toSpan (a b : Span) : Span := ⟨a.lo, b.hi, a.expn⟩

/-- Source `Span::overlaps`: `self.lo < other.hi && other.lo < self.hi`. -/
def Span.overlapsB (a b : Span) : Bool := a.lo < b.hi && b.lo < a.hi

/-- Source `Span::contains`: `self.lo <= other.lo && other.hi <= self.hi`. -/
def Span.containsB (a b : Span) : Bool := a.lo ≤ b.lo && b.hi ≤ a.hi

/-- Source `Span::between`: the gap from the end of `a` to the start of `b`. -/
def Span.between (a b : Span) : Span := ⟨a.hi, b.lo, a.expn⟩

/-- Source `SourceMap::next_point` for one-byte characters: starts at `hi` and ends at
`max (lo+1) hi`; an empty span thus steps to the one-character span after it,
and a non-empty span steps to the empty span at its end. -/
def nextPoint (s : Span) : Span := ⟨s.hi, Nat.max (s.lo + 1) s.hi, s.expn⟩

/-- Source `SourceMap::span_to_snippet`: the text under the span, or `none` when the
span is malformed or reaches past the end of the text (a synthetic span). -/
def spanToSnippet (text : List Char) (s : Span) : Option String :=
  if s.lo ≤ s.hi ∧ s.hi ≤ text.length then
    some (String.mk ((text.drop s.lo).take (s.hi - s.lo)))
  else
    none

/-- Source `DefId`: a crate number plus a definition index; `CRATE_DEF_INDEX = 0`. -/
structure DefId where
  krate : Nat
  index : Nat
deriving DecidableEq

/-- Source `DefId::local(CRATE_DEF_INDEX)` (line 222). -/
def crateDefId : DefId := ⟨0, 0⟩

/-- Source `rustc_span::MacroKind`. -/
inductive MacroKind where
  | Bang
  | Attr
  | Derive
deriving DecidableEq

/-- Source `rustc_hir::def::CtorKind`. -/
inductive CtorKind where
  | Fn
  | Const
  | Fictive
deriving DecidableEq

/-- The `DefKind`s this file matches on. -/
inductive DefKind where
  | Mod
  | Struct
  | Union
  | Enum
  | Variant
  | Trait
  | TyAlias
  | AssocTy
  | Fn
  | AssocFn
  | Const
  | AssocConst
  | Ctor (of : CtorKind)
  | macroKind (k : MacroKind)
  | Static
deriving DecidableEq

/-- Source `PrimTy`. -/
inductive PrimTy where
  | Bool
  | Char
  | Int
  | Uint
  | Float
  | Str
deriving DecidableEq

/-- Source `def::Res`: a resolution outcome's kind and identity. -/
inductive Res where
  | Def (kind : DefKind) (id : DefId)
  | Local (id : Nat)
  | PrimTy (p : PrimTy)
  | SelfTy
  | SelfCtor (id : DefId)
deriving DecidableEq

/-- Source `Res::opt_def_id`. -/
def Res.optDefId : Res → Option DefId
  | .Def _ id => some id
  | _ => none

/-- Source `Namespace`: every lookup targets exactly one. -/
inductive Namespace where
  | TypeNS
  | ValueNS
  | MacroNS
deriving DecidableEq

/-- One path segment: its identifier name, the identifier's span, and the
`has_generic_args` flag. -/
structure Segment where
  name : String
  span : Span
  hasGenericArgs : Bool
deriving DecidableEq

/-- Source `Segment::names_to_string` / `path_names_to_string`: segments joined by
the path separator. -/
def namesToString (names : List String) : String :=
  String.intercalate "::" names

/-! ## Edit distance and `find_best_match_for_name`

`find_best_match_for_name` lives in `rustc_ast::util::lev_distance`, outside
this file.  Modelled from the spec: a "bounded edit-distance match over
collected candidate names" that runs "a single best-match edit-distance
search over the sorted names" and only accepts a name whose "edit distance is
within the matcher's built-in threshold"; the search keeps the first name
attaining the minimal distance. -/

/-- Levenshtein distance between two character lists, structurally recursive
on a fuel argument.  Every recursive call shrinks `xs.length + ys.length` by
at least one and the fuel by exactly one, so with initial fuel
`xs.length + ys.length` the fuel-exhaustion arm is unreachable. -/
def levFuel : Nat → List Char → List Char → Nat
  | _, [], ys => ys.length
  | _, x :: xs, [] => (x :: xs).length
  | 0, _ :: _, _ :: _ => 0
  | f + 1, x :: xs, y :: ys =>
    if x = y then levFuel f xs ys
    else 1 + Nat.min (levFuel f xs ys)
      (Nat.min (levFuel f (x :: xs) ys) (levFuel f xs (y :: ys)))

/-- Levenshtein distance between two names. -/
def levDistance (a b : String) : Nat :=
  levFuel (a.length + b.length) a.toList b.toList

/-- The matcher's built-in distance threshold for a lookup name. -/
def typoThreshold (lookup : String) : Nat := Nat.max lookup.length 3 / 3

/-- Modelled from the spec: `find_best_match_for_name` — keep the candidates
within the threshold and return the first one with minimal edit distance. -/
def findBestMatchForName (names : List String) (lookup : String) (dist : Option Nat) :
    Option String :=
  let md := match dist with
    | some d => d
    | none => typoThreshold lookup
  let withDist := names.filterMap (fun n =>
    let d := levDistance n lookup
    if d ≤ md then some (n, d) else none)
  (withDist.foldl (fun acc c =>
      match acc with
      | none => some c
      | some b => if c.2 < b.2 then some c else some b) none).map (·.1)

/-- Lexicographic order on character lists, mirroring `&str` ordering (for
Unicode text, UTF-8 byte order and code-point order agree). -/
def charListLeB : List Char → List Char → Bool
  | [], _ => true
  | _ :: _, [] => false
  | c :: cs, d :: ds => if c = d then charListLeB cs ds else decide (c < d)

/-- Source `&str` ordering on names. -/
def strLeB (a b : String) : Bool := charListLeB a.toList b.toList

/-- Source `TypoSuggestion`: a candidate name plus the resolution it came from
(`TypoSuggestion::from_res`). -/
structure TypoSuggestion where
  candidate : String
  res : Res
deriving DecidableEq

/-! ## Scope chain and modules, for `lookup_typo_candidate` (lines 687-776) -/

/-- Source `ModuleKind`: a block module is transparent to the outward walk, any
other module is opaque. -/
inductive ModuleKind where
  | Block
  | Def
deriving DecidableEq

/-- The slice of a resolver `Module` that `lookup_typo_candidate` consults:
its kind, its `no_implicit_prelude` flag and its children's resolutions. -/
structure ModuleScope where
  kind : ModuleKind
  noImplicitPrelude : Bool
  children : List (String × Res)
deriving DecidableEq

/-- The rib kinds this walk distinguishes: a module rib, or any other rib. -/
inductive RibKind where
  | ModuleRibKind (m : ModuleScope)
  | OtherRibKind
deriving DecidableEq

/-- One rib: its bindings (name to resolution) and its kind. -/
structure Rib where
  bindings : List (String × Res)
  kind : RibKind
deriving DecidableEq

/-- Modelled from the spec: `Resolver::add_module_candidates` (defined in the
resolver core, not in this file) — "add all of that module's child bindings
satisfying the predicate". -/
def addModuleCandidates (m : ModuleScope) (filter : Res → Bool) : List TypoSuggestion :=
  m.children.filterMap (fun c => if filter c.2 then some ⟨c.1, c.2⟩ else none)

/-- The environment of read-only resolver state consulted by the walk: the
extern prelude (each entry with the crate id that
`crate_loader.maybe_process_path_extern` yields for it, if any) and the
standard prelude module. -/
structure TypoEnv where
  externPrelude : List (String × Option Nat)
  preludeMod : Option ModuleScope
  primitiveTypes : List (String × PrimTy)
deriving Inhabited

/-- Lines 714-737: the names added at an opaque module boundary when the
module permits the implicit prelude — the extern-crate roots that resolve to
a crate and pass the filter, then the prelude module's children. -/
def moduleStopNames (env : TypoEnv) (m : ModuleScope) (filter : Res → Bool) :
    List TypoSuggestion :=
  if !m.noImplicitPrelude then
    (env.externPrelude.filterMap (fun e =>
      e.2.bind (fun crateId =>
        let crateMod := Res.Def .Mod ⟨crateId, 0⟩
        if filter crateMod then some ⟨e.1, crateMod⟩ else none))) ++
    (match env.preludeMod with
     | some p => addModuleCandidates p filter
     | none => [])
  else []

/-- Local bindings of one rib that pass the filter (lines 700-704). -/
def ribLocalNames (rib : Rib) (filter : Res → Bool) : List TypoSuggestion :=
  rib.bindings.filterMap (fun b => if filter b.2 then some ⟨b.1, b.2⟩ else none)

/-- Lines 698-741: the bare-identifier scope walk over the rib stack, taken
innermost-first.  Block-module ribs are passed through; the first opaque
module rib contributes its children plus the prelude pass and stops the walk. -/
def walkRibs (env : TypoEnv) (filter : Res → Bool) : List Rib → List TypoSuggestion
  | [] => []
  | rib :: rest =>
    ribLocalNames rib filter ++
    match rib.kind with
    | .ModuleRibKind m =>
      addModuleCandidates m filter ++
      match m.kind with
      | .Block => walkRibs env filter rest
      | .Def => moduleStopNames env m filter
    | .OtherRibKind => walkRibs env filter rest

/-- The contribution of one non-stopping rib to the walk. -/
def ribContribution (filter : Res → Bool) (rib : Rib) :
    List TypoSuggestion :=
  ribLocalNames rib filter ++
  match rib.kind with
  | .ModuleRibKind m => addModuleCandidates m filter
  | .OtherRibKind => []

/-- Whether a rib is an opaque (non-block) module boundary, where the walk
stops. -/
def isStopRib (rib : Rib) : Bool :=
  match rib.kind with
  | .ModuleRibKind m => m.kind = ModuleKind.Def
  | .OtherRibKind => false

/-- Lines 742-749: if the filter accepts primitive types, every primitive
type name joins the candidate list. -/
def primTypeNames (env : TypoEnv) (filter : Res → Bool) : List TypoSuggestion :=
  if filter (Res.PrimTy .Bool) then
    env.primitiveTypes.map (fun p => ⟨p.1, Res.PrimTy p.2⟩)
  else []

/-- Lines 694-760: candidate collection for `lookup_typo_candidate`.  `ribs`
is the rib stack as stored (outermost first; the source iterates it with
`.iter().rev()`).  For a qualified path the candidates come instead from the
module the prefix resolves to (`resolvedPrefix` stands for the
`resolve_path` call on `path[..path.len()-1]`, a resolver-core operation). -/
def collectTypoCandidates (env : TypoEnv) (ribs : List Rib)
    (resolvedPrefix : Option ModuleScope) (path : List Segment)
    (filter : Res → Bool) : List TypoSuggestion :=
  if path.length = 1 then
    walkRibs env filter ribs.reverse ++ primTypeNames env filter
  else
    match resolvedPrefix with
    | some m => addModuleCandidates m filter
    | none => []

/-- The sort order of line 764: by candidate name only. -/
def byName (a b : TypoSuggestion) : Prop := strLeB a.candidate b.candidate = true

instance : DecidableRel byName := fun _ _ => instDecidableEqBool _ _

/-- Lines 762-775: sort the candidates by name for determinism
(`sort_by_cached_key` is a stable sort keyed by the candidate name;
`insertionSort` by non-strict name order is the same stable sort), run the
best-match search over the sorted names, and return the suggestion carrying
the winning name — unless the winner equals the lookup name itself. -/
def typoChoose (names : List TypoSuggestion) (target : String) : Option TypoSuggestion :=
  match findBestMatchForName ((names.insertionSort byName).map (fun s => s.candidate))
      target none with
  | some found =>
    if found ≠ target then
      (names.insertionSort byName).find? (fun s => s.candidate == found)
    else none
  | none => none

/-- Lines 687-776: `lookup_typo_candidate`.  The source indexes
`path[path.len() - 1]`, which panics on an empty path; callers guarantee a
non-empty path, and the embedding returns `none` there. -/
def lookupTypoCandidate (env : TypoEnv) (ribs : List Rib)
    (resolvedPrefix : Option ModuleScope) (path : List Segment)
    (filter : Res → Bool) : Option TypoSuggestion :=
  match path.getLast? with
  | none => none
  | some lastSeg =>
    typoChoose (collectTypoCandidates env ribs resolvedPrefix path filter) lastSeg.name

/-! ## Diagnostics as data

A `DiagnosticBuilder` becomes an explicit error state: the primary span,
message and error code set by `struct_span_err_with_code`, plus the ordered
list of sub-diagnostics appended by the `err.*` calls. -/

/-- Source `rustc_errors::Applicability`. -/
inductive Applicability where
  | MachineApplicable
  | MaybeIncorrect
  | HasPlaceholders
deriving DecidableEq

/-- One appended sub-diagnostic, one constructor per `DiagnosticBuilder`
method used in this file. -/
inductive DiagItem where
  | spanLabel (sp : Span) (msg : String)
  | spanSuggestion (sp : Span) (msg : String) (sugg : String) (app : Applicability)
  | spanSuggestionShort (sp : Span) (msg : String) (sugg : String) (app : Applicability)
  | spanSuggestionVerbose (sp : Span) (msg : String) (sugg : String) (app : Applicability)
  | spanSuggestions (sp : Span) (msg : String) (suggs : List String) (app : Applicability)
  | multipartSuggestion (msg : String) (parts : List (Span × String)) (app : Applicability)
  | note (msg : String)
  | spanNote (sps : List Span) (msg : String)
  | spanHelp (sp : Span) (msg : String)
  | helpNote (msg : String)
deriving DecidableEq

/-- The diagnostic under construction. -/
structure ErrState where
  span : Span
  msg : String
  code : String
  sub : List DiagItem
deriving DecidableEq

/-! ## Module graph and `find_module` (lines 863-906) -/

/-- What `for_each_child` exposes about one child binding of a module: its
identifier, whether its visibility `is_visible_locally`, the definition id of
the module it binds (`name_binding.module()`), its span, and its resolution. -/
structure ChildBinding where
  ident : String
  visibleLocally : Bool
  subModule : Option DefId
  span : Span
  res : Res
deriving DecidableEq

/-- The children of one module. -/
structure ModData where
  children : List ChildBinding
deriving DecidableEq

/-- The module graph reachable from `graph_root`.  Re-exports may make
several bindings point at the same module id. -/
structure ModGraph where
  root : DefId
  mods : List (DefId × ModData)
deriving DecidableEq

/-- The children of the module with a given id (none for an id the graph does
not list). -/
def ModGraph.childrenOf (g : ModGraph) (id : DefId) : List ChildBinding :=
  ((g.mods.find? (fun e => e.1 == id)).map (fun e => e.2.children)).getD []

/-- An `ast::Path` as this file builds it: a span plus segment names. -/
structure RPath where
  span : Span
  segments : List String
deriving DecidableEq

/-- Source `ImportSuggestion`. -/
structure ImportSuggestion where
  did : Option DefId
  descr : String
  path : RPath
  accessible : Bool
deriving DecidableEq

/-- The loop state of `find_module`: the result slot, the seen-modules set
(as the list of inserted ids, newest first), the worklist (top of the `Vec`
stack first), and — as an instrumentation the source keeps implicitly — the
ids ever enqueued, in order. -/
structure FindState where
  result : Option (DefId × ImportSuggestion)
  seen : List DefId
  worklist : List (DefId × List String)
  enqueued : List DefId
deriving DecidableEq

/-- Lines 874-902: the body of the `for_each_child` closure for one child.
Skips when a result exists already or the binding is not locally visible;
otherwise follows module bindings, records a hit on the target id, and
enqueues unseen modules after inserting them into the seen set. -/
def processChild (target : DefId) (pathSegs : List String) (st : FindState)
    (c : ChildBinding) : FindState :=
  if st.result.isSome || !c.visibleLocally then st
  else
    match c.subModule with
    | none => st
    | some mid =>
      let segs := pathSegs ++ [c.ident]
      if mid = target then
        { st with result := some (mid, ⟨some target, "module", ⟨c.span, segs⟩, true⟩) }
      else if mid ∈ st.seen then st
      else { st with
              seen := mid :: st.seen,
              worklist := (mid, segs) :: st.worklist,
              enqueued := st.enqueued ++ [mid] }

/-- The outcome of `find_module`, with fuel exhaustion as an explicit third
case so that termination is a theorem rather than an assumption. -/
inductive FindOutcome where
  | found (id : DefId) (s : ImportSuggestion)
  | notFound
  | outOfFuel
deriving DecidableEq

/-- Every id that occurs as a child-module id anywhere in the graph — the
only ids `find_module` can ever enqueue beyond the root. -/
def allSubIds (g : ModGraph) : List DefId :=
  g.mods.flatMap (fun e => e.2.children.filterMap (fun c => c.subModule))

/-- The total number of child bindings in the graph: an upper bound on how
many pushes one popped module can cause. -/
def totalChildren (g : ModGraph) : Nat :=
  (g.mods.map (fun e => e.2.children.length)).sum

/-- Fuel sufficient for the whole worklist loop (proved below). -/
def findModuleFuel (g : ModGraph) : Nat :=
  (allSubIds g).dedup.length * (totalChildren g + 1) + 2

/-- Lines 868-903: the worklist loop of `find_module`.  Pops the top entry,
breaks as soon as a result exists, and otherwise folds the closure over the
popped module's children. -/
def findModuleLoop (g : ModGraph) (target : DefId) :
    Nat → FindState → FindOutcome × List DefId
  | 0, st => (.outOfFuel, st.enqueued)
  | fuel + 1, st =>
    match st.worklist with
    | [] =>
      match st.result with
      | some r => (.found r.1 r.2, st.enqueued)
      | none => (.notFound, st.enqueued)
    | (id, segs) :: rest =>
      match st.result with
      | some r => (.found r.1 r.2, st.enqueued)
      | none =>
        findModuleLoop g target fuel
          ((g.childrenOf id).foldl (processChild target segs) { st with worklist := rest })

/-- The initial state: the root module enqueued with an empty path and an
empty seen set (the root itself is never inserted into `seen`). -/
def findModuleInit (g : ModGraph) : FindState :=
  ⟨none, [], [(g.root, [])], [g.root]⟩

/-- Source `find_module` plus its enqueue log. -/
def findModuleFull (g : ModGraph) (target : DefId) : FindOutcome × List DefId :=
  findModuleLoop g target (findModuleFuel g) (findModuleInit g)

/-- Lines 863-906: `find_module`. -/
def findModule (g : ModGraph) (target : DefId) : FindOutcome :=
  (findModuleFull g target).1

/-- The ids enqueued during `find_module`, in order. -/
def findModuleLog (g : ModGraph) (target : DefId) : List DefId :=
  (findModuleFull g target).2

/-- Lines 908-920: `collect_enum_variants` — find the enum's defining module,
then list each variant child as the found path extended by the variant name. -/
def collectEnumVariants (g : ModGraph) (defId : DefId) : Option (List RPath) :=
  match findModule g defId with
  | .found enumMod sugg =>
    some ((g.childrenOf enumMod).filterMap (fun c =>
      match c.res with
      | .Def .Variant _ => some (⟨c.span, sugg.path.segments ++ [c.ident]⟩ : RPath)
      | _ => none))
  | _ => none

/-! ## Expressions and path sources -/

/-- The expression shapes this file inspects. -/
inductive Expr where
  | field (span : Span) (ident : String)
  | methodCall (span : Span) (ident : String) (identSpan : Span)
  | call (span : Span) (args : List Expr)
  | addrOf (span : Span) (e : Expr)
  | path (span : Span) (segs : List String)
  | other (span : Span)

/-- The span of an expression. -/
def Expr.span : Expr → Span
  | .field sp _ => sp
  | .methodCall sp _ _ => sp
  | .call sp _ => sp
  | .addrOf sp _ => sp
  | .path sp _ => sp
  | .other sp => sp

/-- Source `PathSource`: the syntactic position the failing path occurred in. -/
inductive PathSource where
  | typeSrc
  | traitSrc
  | structSrc
  | tupleStruct
  | pat
  | expr (parent : Option Expr)
  | traitItem (ns : Namespace)

/-- Modelled from the spec: `PathSource::namespace` (resolver core) — "a
lookup request always targets exactly one" namespace, determined by the
syntactic position. -/
def pathSourceNamespace : PathSource → Namespace
  | .typeSrc => .TypeNS
  | .traitSrc => .TypeNS
  | .structSrc => .TypeNS
  | .tupleStruct => .ValueNS
  | .pat => .ValueNS
  | .expr _ => .ValueNS
  | .traitItem ns => ns

/-- Source `Span::with_hi`. -/
def Span.withHi (s : Span) (h : Nat) : Span := ⟨s.lo, h, s.expn⟩

/-- Lines 366-388: the loop peeling `&`/`&mut` off the first call argument
and testing whether a bare single-segment `self` path remains. -/
def isSelfArgExpr : Expr → Bool
  | .path _ segs =>
    match segs with
    | [s] => s == "self"
    | _ => false
  | .addrOf _ e => isSelfArgExpr e
  | _ => false

/-- Lines 359-394: `call_has_self_arg` — if the source is a call expression
whose first argument is `self`, the span of the whole call and the span
covering the remaining arguments. -/
def callHasSelfArg (source : PathSource) : Option (Span × Option Span) :=
  match source with
  | .expr (some parent) =>
    match parent with
    | .call cspan args =>
      match args with
      | [] => none
      | a0 :: rest =>
        if isSelfArgExpr a0 then
          some (cspan,
            match rest with
            | [] => none
            | r1 :: rs =>
              some ⟨r1.span.lo, ((r1 :: rs).getLast (by simp)).span.hi, cspan.expn⟩)
        else none
    | _ => none
  | _ => none

/-! ## `followed_by_brace` (lines 396-441) -/

theorem spanToSnippet_some_bounds {text : List Char} {sp : Span} {s : String}
    (h : spanToSnippet text sp = some s) : sp.lo ≤ sp.hi ∧ sp.hi ≤ text.length := by
  unfold spanToSnippet at h
  split at h
  · assumption
  · cases h

/-- Lines 402-413: advance span by span until the snippet under the cursor
contains a non-whitespace character or the source map gives up. -/
def wsLoop (text : List Char) (sp : Span) : Span :=
  match h : spanToSnippet text (nextPoint sp) with
  | some s =>
    if s.toList.any (fun c => !c.isWhitespace) then nextPoint sp
    else wsLoop text (nextPoint sp)
  | none => nextPoint sp
termination_by 2 * text.length + 2 - (sp.lo + sp.hi)
decreasing_by
  have hb := spanToSnippet_some_bounds h
  simp only [nextPoint] at hb ⊢
  obtain ⟨hb1, hb2⟩ := hb
  generalize hm : Nat.max (sp.lo + 1) sp.hi = m at *
  have h1 : sp.lo + 1 ≤ m := hm ▸ Nat.le_max_left _ _
  have h2 : sp.hi ≤ m := hm ▸ Nat.le_max_right _ _
  omega

/-- Lines 420-439: scan forward for a `}` snippet, giving up after the
100-iteration cap or when the source map fails. -/
def braceLoop (text : List Char) (sp : Span) (i : Nat) : Option Span :=
  let sp' := nextPoint sp
  match spanToSnippet text sp' with
  | some s =>
    if s == "\x7d" then some sp'
    else if h : i + 1 > 100 then none
    else braceLoop text sp' (i + 1)
  | none => none
termination_by 101 - i
decreasing_by omega

/-- Lines 396-441: `followed_by_brace` — whether the span is followed, after
whitespace, by `{`, and the span from the start of the original span to a
later `}` found within the scan cap. -/
def followedByBrace (text : List Char) (span : Span) : Bool × Option Span :=
  let spF := wsLoop text span
  let fb :=
    match spanToSnippet text spF with
    | some s => s == "\x7b"
    | none => false
  (fb, (braceLoop text spF 0).map (fun bs => span.toSpan bs))

/-! ## `smart_resolve_context_dependent_help` (lines 443-609) -/

/-- Source `AssocSuggestion` (lines 26-31). -/
inductive AssocSuggestion where
  | Field
  | MethodWithSelf
  | AssocItem
deriving DecidableEq

/-- An enclosing function, as `diagnostic_metadata.current_function` exposes
it: whether its first declared input `is_self`, and its span. -/
structure FnInfo where
  hasSelfParam : Bool
  span : Span
deriving DecidableEq

/-- Source `ast::Item` as used by `report_missing_type_error`: a generic-parameter
list with the span of each parameter's identifier and of each of its bounds. -/
structure AstGenericParam where
  identSpan : Span
  bounds : List Span
deriving DecidableEq

/-- Source `ast::Generics`. -/
structure AstGenerics where
  params : List AstGenericParam
  span : Span
deriving DecidableEq

/-- The item kinds `report_missing_type_error` distinguishes: functions,
enums, structs and unions (matched by name), and any other kind, which only
matters through whether it has generics. -/
inductive ItemKind where
  | fnKind (g : AstGenerics)
  | enumKind (g : AstGenerics)
  | structKind (g : AstGenerics)
  | unionKind (g : AstGenerics)
  | otherKind (g : Option AstGenerics)
deriving DecidableEq

/-- Source `ItemKind::generics`. -/
def ItemKind.generics : ItemKind → Option AstGenerics
  | .fnKind g => some g
  | .enumKind g => some g
  | .structKind g => some g
  | .unionKind g => some g
  | .otherKind g => g

/-- An `ast::Item`: its kind and identifier. -/
structure Item where
  kind : ItemKind
  ident : String
deriving DecidableEq

/-- The `diagnostic_metadata` fields this file reads. -/
structure DiagMeta where
  currentFunction : Option FnInfo
  currentLetBinding : Option (Span × Option Span × Option Span)
  currentItem : Option Item
  currentlyProcessingGenerics : Bool

/-- All read-only collaborator state one diagnosis call consults.  Resolver
operations that live outside this file (`lookup_import_candidates`,
`lookup_assoc_candidate`'s resolver queries, `self_*_is_available`,
`opt_span`, `struct_constructors`, session flags) are modelled as the values
they return for this call. -/
structure Env where
  text : List Char
  typoEnv : TypoEnv
  ribs : Namespace → List Rib
  resolvedPrefixTypo : Option ModuleScope
  resolvePrefixRes : Option Res
  modGraph : ModGraph
  isExpected : Res → Bool
  descrExpected : String
  errorCode : Bool → String
  resDescr : Res → String
  selfValueAvail : Bool
  selfTypeAvail : Bool
  importCandidatesExpected : List ImportSuggestion
  importCandidatesEnumVariant : List ImportSuggestion
  assocCandidate : Option AssocSuggestion
  isNightly : Bool
  editionIs2015 : Bool
  optSpanOf : DefId → Option Span
  structCtor : DefId → Option (Res × Bool)
  ascriptionItems : List DiagItem
  dm : DiagMeta

/-- Lines 458-479: the `path_sep` closure — rewrite a field access or method
call on the parent expression into a path, when the parent has that shape. -/
def pathSepItem (pathStr : String) (e : Expr) : Option DiagItem :=
  match e with
  | .field espan ident =>
    some (.spanSuggestion espan "use the path separator to refer to an item"
      (pathStr ++ "::" ++ ident) .MaybeIncorrect)
  | .methodCall espan ident identSpan =>
    some (.spanSuggestion (espan.withHi identSpan.hi)
      "use the path separator to refer to an item"
      (pathStr ++ "::" ++ ident) .MaybeIncorrect)
  | _ => none

/-- Lines 481-518: the `bad_struct_syntax_suggestion` closure. -/
def badStructSyntaxItems (env : Env) (span : Span) (source : PathSource)
    (pathStr : String) (defId : DefId) : List DiagItem :=
  let fb := followedByBrace env.text span
  let (suggested, items) :=
    match source with
    | .expr (some parent) =>
      match pathSepItem pathStr parent with
      | some it => (true, [it])
      | none => (false, [])
    | .expr none =>
      if fb.1 then
        match fb.2 with
        | some sp =>
          (true, [.multipartSuggestion "surround the struct literal with parentheses"
            [(sp.shrinkToLo, "("), (sp.shrinkToHi, ")")] .MaybeIncorrect])
        | none =>
          (true, [.spanLabel span
            ("you might want to surround a struct literal with parentheses: `(" ++
             pathStr ++ " \x7b /* fields */ \x7d)`?")])
      else (false, [])
    | _ => (false, [])
  if suggested then items
  else
    items ++
    (match env.optSpanOf defId with
     | some dspan => [.spanLabel dspan ("`" ++ pathStr ++ "` defined here")]
     | none => []) ++
    [.spanLabel span ("did you mean `" ++ pathStr ++ " \x7b /* fields */ \x7d`?")]

/-- Lines 446-609: `smart_resolve_context_dependent_help` — the dispatch
table over (resolved kind, syntactic source).  Returns whether a rule fired
together with the sub-diagnostics it appended. -/
def smartResolveContextDependentHelp (env : Env) (span : Span)
    (source : PathSource) (res : Res) (pathStr fallbackLabel : String) :
    Bool × List DiagItem :=
  let ns := pathSourceNamespace source
  match res, source with
  | .Def (.macroKind .Bang) _, _ =>
    (true,
     [.spanSuggestionVerbose span.shrinkToHi "use `!` to invoke the macro" "!" .MaybeIncorrect] ++
     (if pathStr == "try" && env.editionIs2015 then
        [.note "if you want the `try` keyword, you need to be in the 2018 edition"]
      else []))
  | .Def .TyAlias defId, .traitSrc =>
    (true,
     [.spanLabel span "type aliases cannot be used as traits"] ++
     (if env.isNightly then
        let msg := "you might have meant to use `#![feature(trait_alias)]` instead of a `type` alias"
        match env.optSpanOf defId with
        | some s => [.spanHelp s msg]
        | none => [.helpNote msg]
      else []))
  | .Def .Mod _, .expr (some parent) =>
    (match pathSepItem pathStr parent with
     | some it => (true, [it])
     | none => (false, []))
  | .Def .Enum defId, .tupleStruct | .Def .Enum defId, .expr _ =>
    (true,
     match collectEnumVariants env.modGraph defId with
     | some variants =>
       if !variants.isEmpty then
         let msg := if variants.length == 1 then "try using the enum\x27s variant"
           else "try using one of the enum\x27s variants"
         [.spanSuggestions span msg (variants.map (fun v => namesToString v.segments))
           .MaybeIncorrect]
       else []
     | none => [.note "did you mean to use one of the enum\x27s variants?"])
  | .Def .Struct defId, _ =>
    if ns == .ValueNS then
      (true,
       match env.structCtor defId with
       | some (ctorDef, accessibleCtor) =>
         if env.isExpected ctorDef && !accessibleCtor then
           [.spanLabel span "constructor is not visible here due to private fields"]
         else []
       | none => badStructSyntaxItems env span source pathStr defId)
    else (false, [])
  | .Def .Union defId, _ =>
    if ns == .ValueNS then (true, badStructSyntaxItems env span source pathStr defId)
    else (false, [])
  | .Def .Variant defId, _ =>
    if ns == .ValueNS then (true, badStructSyntaxItems env span source pathStr defId)
    else (false, [])
  | .Def (.Ctor .Fictive) defId, _ =>
    if ns == .ValueNS then (true, badStructSyntaxItems env span source pathStr defId)
    else (false, [])
  | .Def (.Ctor .Fn) defId, _ =>
    if ns == .ValueNS then
      (true,
       (match env.optSpanOf defId with
        | some dspan => [.spanLabel dspan ("`" ++ pathStr ++ "` defined here")]
        | none => []) ++
       [.spanLabel span ("did you mean `" ++ pathStr ++ "( /* fields */ )`?")])
    else (false, [])
  | .SelfTy, _ =>
    if ns == .ValueNS then
      (true,
       [.spanLabel span fallbackLabel,
        .note "can\x27t use `Self` as a constructor, you must use the implemented struct"])
    else (false, [])
  | .Def .TyAlias _, _ =>
    if ns == .ValueNS then (true, [.note "can\x27t use a type alias as a constructor"])
    else (false, [])
  | .Def .AssocTy _, _ =>
    if ns == .ValueNS then (true, [.note "can\x27t use a type alias as a constructor"])
    else (false, [])
  | _, _ => (false, [])

/-! ## `smart_resolve_report_errors` (lines 93-357) -/

/-- Lines 67-69: `is_self_type`. -/
def isSelfType (path : List Segment) (ns : Namespace) : Bool :=
  match path with
  | [s] => ns == .TypeNS && s.name == "Self"
  | _ => false

/-- Lines 71-73: `is_self_value`. -/
def isSelfValue (path : List Segment) (ns : Namespace) : Bool :=
  match path with
  | [s] => ns == .ValueNS && s.name == "self"
  | _ => false

/-- Helper for prefix stripping: drop the exact prefix `p` off `s`, or `none`. -/
def dropPre : List Char → List Char → Option (List Char)
  | [], s => some s
  | _ :: _, [] => none
  | p :: ps, c :: cs => if p = c then dropPre ps cs else none

theorem dropPre_length : ∀ (p s r : List Char), dropPre p s = some r →
    r.length + p.length = s.length := by
  intro p
  induction p with
  | nil => intro s r h; cases h; simp
  | cons p ps ih =>
    intro s r h
    cases s with
    | nil => cases h
    | cons c cs =>
      unfold dropPre at h
      split at h
      · have := ih cs r h
        simp [List.length_cons]
        omega
      · cases h

/-- Source `str::trim_start_matches`: strip the prefix as often as it occurs. -/
def stripAll (pre : List Char) (s : List Char) : List Char :=
  match pre with
  | [] => s
  | p :: ps =>
    match h : dropPre (p :: ps) s with
    | some rest => stripAll (p :: ps) rest
    | none => s
termination_by s.length
decreasing_by
  have hl := dropPre_length (p :: ps) s rest h
  simp only [List.length_cons] at hl
  omega

/-- Source `str::trim_start_matches` on strings. -/
def trimStartMatches (pre s : String) : String :=
  String.mk (stripAll pre.toList s.toList)

/-- Lines 76-88: `import_candidate_to_enum_paths` — the variant path as a
string, and the enum path (all but the last segment) as a string. -/
def importCandidateToEnumPaths (s : ImportSuggestion) : String × String :=
  (namesToString s.path.segments, namesToString s.path.segments.dropLast)

/-- Source `Vec::sort` order on the string pairs of line 230 (full lexicographic
pair order, a total order, so any sorting algorithm gives the same output). -/
def pairLeB (a b : String × String) : Bool :=
  if a.1 == b.1 then strLeB a.2 b.2 else strLeB a.1 b.1

/-- The name of the `{{root}}` path keyword (`kw::PathRoot`). -/
def pathRootName : String := "\x7b\x7broot\x7d\x7d"

/-- The two stages of interest on the tail of the diagnosis: the typo-engine
invocation (line 323) and the entry into the context-dependent dispatch
(line 328). -/
inductive Stage where
  | typoLookup
  | contextHelp
deriving DecidableEq

/-- The result of one diagnosis call: the built error, the import candidates
handed back to the caller, and the trace of tail stages that ran. -/
structure SmartResolved where
  err : ErrState
  candidates : List ImportSuggestion
  stages : List Stage
deriving DecidableEq

/-- Lines 340-355: the fallback label, the type-ascription help (lines
778-861, abstracted as the items that call produces), and the
`current_let_binding` assignment hint. -/
def fallbackItems (env : Env) (baseSpan : Span) (fallbackLabel : String)
    (couldBeExpr : Bool) : List DiagItem :=
  [.spanLabel baseSpan fallbackLabel] ++ env.ascriptionItems ++
  (match env.dm.currentLetBinding with
   | some (patSp, some tySp, none) =>
     if tySp.containsB baseSpan && couldBeExpr then
       [.spanSuggestionShort (patSp.between tySp) "use `=` if you meant to assign"
         " = " .MaybeIncorrect]
     else []
   | _ => [])

/-- Lines 322-356: the tail of `smart_resolve_report_errors` — run the typo
engine (unconditionally), attach its suggestion if any
(`Resolver::add_typo_suggestion`, resolver core: emit and report success when
a suggestion is present), then try the context-dependent dispatch when the
lookup resolved, and otherwise fall back. -/
def smartResolveTail (env : Env) (path : List Segment) (span baseSpan identSpan : Span)
    (source : PathSource) (res : Option Res) (pathStr fallbackLabel : String)
    (couldBeExpr : Bool) (err : ErrState) (candidates : List ImportSuggestion) :
    SmartResolved :=
  let ns := pathSourceNamespace source
  let typoSugg := lookupTypoCandidate env.typoEnv (env.ribs ns) env.resolvedPrefixTypo
    path env.isExpected
  let (levenshteinWorked, err5) :=
    match typoSugg with
    | some s =>
      (true, { err with sub := err.sub ++ [DiagItem.spanSuggestion identSpan
        ("a " ++ env.resDescr s.res ++ " with a similar name exists")
        s.candidate .MaybeIncorrect] })
    | none => (false, err)
  match res with
  | some r =>
    let (fired, ctxItems) :=
      smartResolveContextDependentHelp env span source r pathStr fallbackLabel
    if fired then
      ⟨{ err5 with sub := err5.sub ++ ctxItems }, candidates, [.typoLookup, .contextHelp]⟩
    else if !levenshteinWorked then
      ⟨{ err5 with sub := err5.sub ++ fallbackItems env baseSpan fallbackLabel couldBeExpr },
       candidates, [.typoLookup, .contextHelp]⟩
    else ⟨err5, candidates, [.typoLookup, .contextHelp]⟩
  | none =>
    if !levenshteinWorked then
      ⟨{ err5 with sub := err5.sub ++ fallbackItems env baseSpan fallbackLabel couldBeExpr },
       candidates, [.typoLookup]⟩
    else ⟨err5, candidates, [.typoLookup]⟩

/-- Lines 93-357: `smart_resolve_report_errors`.  Returns `none` exactly when
the source would panic: `path.last().unwrap()` on an empty path (lines 108
and 135). -/
def smartResolveReportErrors (env : Env) (path : List Segment) (span : Span)
    (source : PathSource) (res : Option Res) : Option SmartResolved :=
  let identSpan := match path.getLast? with
    | some s => s.span
    | none => span
  let ns := pathSourceNamespace source
  let expected := env.descrExpected
  let pathStr := namesToString (path.map (fun s => s.name))
  match path.getLast? with
  | none => none
  | some lastSeg =>
    let itemStr := lastSeg.name
    let (baseMsg, fallbackLabel, baseSpan, couldBeExpr) :=
      match res with
      | some r =>
        ("expected " ++ expected ++ ", found " ++ env.resDescr r ++ " `" ++ pathStr ++ "`",
         "not a " ++ expected,
         span,
         match r with
         | .Def .Fn _ =>
           (match spanToSnippet env.text span with
            | some snippet => snippet.endsWith ")"
            | none => false)
         | .Def (.Ctor _) _ => true
         | .Def .AssocFn _ => true
         | .Def .Const _ => true
         | .Def .AssocConst _ => true
         | .SelfCtor _ => true
         | .PrimTy _ => true
         | .Local _ => true
         | _ => false)
      | none =>
        let itemSpan := lastSeg.span
        let (modPrefixStr, modStr) :=
          if path.length = 1 then ("", "this scope")
          else if path.length = 2 &&
              (match path.head? with | some s => s.name == pathRootName | none => false) then
            ("", "the crate root")
          else
            ((match env.resolvePrefixRes with
              | some r => env.resDescr r ++ " "
              | none => ""),
             "`" ++ namesToString (path.dropLast.map (fun (seg : Segment) => seg.name)) ++ "`")
        ("cannot find " ++ expected ++ " `" ++ itemStr ++ "` in " ++ modPrefixStr ++ modStr,
         (if pathStr == "async" && expected.startsWith "struct" then
            "`async` blocks are only allowed in the 2018 edition"
          else "not found in " ++ modStr),
         itemSpan, false)
    let err0 : ErrState := ⟨baseSpan, baseMsg, env.errorCode res.isSome, []⟩
    -- Lines 165-175: fake `self` from other languages (`this`, `my`)
    let err1 :=
      if (itemStr == "this" || itemStr == "my") && env.selfValueAvail then
        { err0 with sub := err0.sub ++ [DiagItem.spanSuggestionShort span
          "you might have meant to use `self` here instead" "self" .MaybeIncorrect] }
      else err0
    -- Lines 177-207: special messages for unresolved `Self` and `self`
    if isSelfType path ns then
      some ⟨{ err1 with
        code := "E0411",
        sub := err1.sub ++
          [DiagItem.spanLabel span "`Self` is only available in impls, traits, and type definitions"] },
        [], []⟩
    else if isSelfValue path ns then
      let err2 := { err1 with
        code := "E0424",
        sub := err1.sub ++ [DiagItem.spanLabel span
          (match source with
           | .pat => "`self` value is a keyword and may not be bound to variables or shadowed"
           | _ => "`self` value is a keyword only available in methods with a `self` parameter")] }
      let err3 :=
        match env.dm.currentFunction with
        | some f =>
          { err2 with sub := err2.sub ++ [DiagItem.spanLabel f.span
            (if f.hasSelfParam then
              "this function has a `self` parameter, but a macro invocation can only access identifiers it receives from parameters"
             else "this function doesn\x27t have a `self` parameter")] }
        | none => err2
      some ⟨err3, [], []⟩
    else
      -- Lines 209-221: import candidates, minus the already-found resolution
      let candidates := env.importCandidatesExpected.filter (fun (s : ImportSuggestion) =>
        match s.did, res.bind Res.optDefId with
        | some sd, some ad => sd ≠ ad
        | _, _ => true)
      -- Lines 222-266: enum-variant candidates
      let err4 :=
        if candidates.isEmpty && env.isExpected (Res.Def .Enum crateDefId) then
          let enumCandidates :=
            (env.importCandidatesEnumVariant.map importCandidateToEnumPaths).insertionSort (fun a b => pairLeB a b = true)
          if !enumCandidates.isEmpty then
            let preamble :=
              if res.isNone then
                let others :=
                  match enumCandidates.length with
                  | 1 => ""
                  | 2 => " and 1 other"
                  | n => " and " ++ toString n ++ " others"
                "there is an enum variant `" ++
                  (match enumCandidates.head? with | some c => c.1 | none => "") ++ "`" ++
                  others ++ "; "
              else ""
            { err1 with sub := err1.sub ++ [DiagItem.spanSuggestions span
                (preamble ++ "try using the variant\x27s enum")
                (((enumCandidates.map (fun (c : String × String) => c.2)).filter
                    (fun p => p ≠ "std::prelude::v1")).map
                  (trimStartMatches "std::prelude::v1::"))
                .MachineApplicable] }
          else err1
        else err1
      -- Lines 267-320: associated-item and `self`-argument help
      if path.length = 1 && env.selfTypeAvail then
        match env.assocCandidate with
        | some cand =>
          let selfIsAvailable := env.selfValueAvail
          let item :=
            match cand with
            | .Field =>
              if selfIsAvailable then
                DiagItem.spanSuggestion span "you might have meant to use the available field"
                  ("self." ++ pathStr) .MachineApplicable
              else DiagItem.spanLabel span "a field by this name exists in `Self`"
            | .MethodWithSelf =>
              if selfIsAvailable then
                DiagItem.spanSuggestion span "try" ("self." ++ pathStr) .MachineApplicable
              else DiagItem.spanSuggestion span "try" ("Self::" ++ pathStr) .MachineApplicable
            | .AssocItem =>
              DiagItem.spanSuggestion span "try" ("Self::" ++ pathStr) .MachineApplicable
          some ⟨{ err4 with sub := err4.sub ++ [item] }, candidates, []⟩
        | none =>
          match callHasSelfArg source with
          | some (callSpan, argsSpan) =>
            let argsSnippet :=
              match argsSpan with
              | some asp =>
                (match spanToSnippet env.text asp with
                 | some s => s
                 | none => "")
              | none => ""
            some ⟨{ err4 with sub := err4.sub ++ [DiagItem.spanSuggestion callSpan
              ("try calling `" ++ itemStr ++ "` as a method")
              ("self." ++ pathStr ++ "(" ++ argsSnippet ++ ")") .MachineApplicable] },
              candidates, []⟩
          | none =>
            some (smartResolveTail env path span baseSpan identSpan source res pathStr
              fallbackLabel couldBeExpr err4 candidates)
      else
        some (smartResolveTail env path span baseSpan identSpan source res pathStr
          fallbackLabel couldBeExpr err4 candidates)

/-! ## `report_missing_type_error` (lines 922-992) -/

/-- Lines 932-934: whether the identifier is a single uppercase character
(`chars().map(is_uppercase)` yields exactly one `true`). -/
def isSingleUppercase (s : String) : Bool :=
  match s.toList with
  | [c] => c.isUpper
  | _ => false

/-- Lines 922-992: `report_missing_type_error` — propose a missing generic
parameter.  Returns the insertion span, message, suggestion text and
applicability, or `none`. -/
def reportMissingTypeError (dm : DiagMeta) (path : List Segment) :
    Option (Span × String × String × Applicability) :=
  match path with
  | [segment] =>
    if segment.hasGenericArgs then none
    else
      let ident := segment.name
      let span := segment.span
      let singleUppercaseChar := isSingleUppercase ident
      if !dm.currentlyProcessingGenerics && !singleUppercaseChar then none
      else
        match dm.currentItem with
        | some item =>
          if (match item.kind with | .fnKind _ => true | _ => false) &&
             item.ident == "main" then
            -- Lines 939-941: never suggest generics on `fn main`
            none
          else if ((match item.kind with
                    | .fnKind _ => true
                    | .enumKind _ => true
                    | .structKind _ => true
                    | .unionKind _ => true
                    | _ => false) && singleUppercaseChar) || !singleUppercaseChar then
            match item.kind.generics with
            | some generics =>
              if span.overlapsB generics.span then none
              else
                let msg := "you might be missing a type parameter"
                let (sp, sugg) :=
                  match generics.params.getLast? with
                  | some param =>
                    ((match param.bounds.getLast? with
                      | some bspan => bspan
                      | none => param.identSpan), ", " ++ ident)
                  | none => (generics.span, "<" ++ ident ++ ">")
                -- Line 979: the expansion check is on the *insertion* span
                if !sp.expn then some (sp.shrinkToHi, msg, sugg, .MaybeIncorrect)
                else none
            | none => none
          else none
        | none => none
  | _ => none

/-! ## Lifetime elision diagnostics (lines 33-59 and 1120-1248) -/

/-- Lines 38-43: `ForLifetimeSpanType`. -/
inductive ForLifetimeSpanType where
  | BoundEmpty
  | BoundTail
  | TypeEmpty
  | TypeTail
deriving DecidableEq

/-- Lines 46-51: `ForLifetimeSpanType::descr`. -/
def ForLifetimeSpanType.descr : ForLifetimeSpanType → String
  | .BoundEmpty => "bound"
  | .BoundTail => "bound"
  | .TypeEmpty => "type"
  | .TypeTail => "type"

/-- Lines 53-58: `ForLifetimeSpanType::suggestion`. -/
def ForLifetimeSpanType.suggFor : ForLifetimeSpanType → String → String
  | .BoundEmpty, sugg => "for<" ++ sugg ++ "> "
  | .TypeEmpty, sugg => "for<" ++ sugg ++ "> "
  | .BoundTail, sugg => ", " ++ sugg
  | .TypeTail, sugg => ", " ++ sugg

/-- A `hir::GenericParam` as inspected here: its span and whether it is a
synthetic impl-Trait type parameter. -/
structure HirGenericParam where
  span : Span
  syntheticImplTrait : Bool
deriving DecidableEq

/-- Lines 33-36: `MissingLifetimeSpot` — a generics list (its parameters and
span) or a higher-ranked binder site. -/
inductive MissingLifetimeSpot where
  | Generics (params : List HirGenericParam) (span : Span)
  | HigherRanked (span : Span) (spanType : ForLifetimeSpanType)
deriving DecidableEq

/-- An `ElisionFailureInfo` as consumed here: the span of one elision-failure
parameter. -/
structure ElisionFailureInfo where
  span : Span
deriving DecidableEq

/-- A visible lifetime name: its text (with the leading tick) and its span. -/
structure LtName where
  name : String
  span : Span
deriving DecidableEq

/-- Source `pluralize!`. -/
def pluralizeS (n : Nat) : String := if n == 1 then "" else "s"

/-- Source `str::repeat`. -/
def strRepeat (s : String) (n : Nat) : String := String.join (List.replicate n s)

/-- Lines 1181-1191: rewrite each elision-failure parameter whose snippet is
a bare `&...` or a `&'_ ...` reference to carry the new `'a` explicitly. -/
def elisionParamParts (text : List Char) (params : List ElisionFailureInfo) :
    List (Span × String) :=
  params.filterMap (fun p =>
    match spanToSnippet text p.span with
    | some snippet =>
      if snippet.startsWith "&" && !snippet.startsWith "&\x27" then
        some (p.span, "&\x27a " ++ snippet.drop 1)
      else if snippet.startsWith "&\x27_ " then
        some (p.span, "&\x27a " ++ snippet.drop 4)
      else none
    | none => none)

/-- Lines 1147-1198: the `suggest_new` closure — walk the missing-lifetime
spots innermost-first (the stack reversed), emit one multi-part suggestion
per spot (binder insertion, parameter rewrites, then the elided-position
rewrite), and stop at the first plain generics list. -/
def suggestNewItems (text : List Char) (params : List ElisionFailureInfo)
    (span : Span) (sugg : String) : List MissingLifetimeSpot → List DiagItem
  | [] => []
  | spot :: rest =>
    let headPart :=
      match spot with
      | .Generics ps gspan =>
        (match ps.find? (fun p => !p.syntheticImplTrait) with
         | some p => (p.span.shrinkToLo, "\x27a, ")
         | none => (gspan, "<\x27a>"))
      | .HigherRanked hspan t => (hspan, t.suggFor "\x27a")
    let msg :=
      match spot with
      | .Generics _ _ => "consider introducing a named lifetime parameter"
      | .HigherRanked _ t =>
        "consider making the " ++ t.descr ++ " lifetime-generic with a new `\x27a` lifetime"
    let shouldBreak :=
      match spot with
      | .Generics _ _ => true
      | .HigherRanked _ _ => false
    let notes :=
      match spot with
      | .Generics _ _ => ([] : List DiagItem)
      | .HigherRanked _ _ =>
        [DiagItem.note "for more information on higher-ranked polymorphism, visit https://doc.rust-lang.org/nomicon/hrtb.html"]
    notes ++
    [DiagItem.multipartSuggestion msg
      (headPart :: (elisionParamParts text params ++ [(span, sugg)])) .MaybeIncorrect] ++
    (if shouldBreak then [] else suggestNewItems text params span sugg rest)

/-- Lines 1120-1248: `add_missing_lifetime_specifiers_label`, as the list of
sub-diagnostics it appends.  `missingSpots` is the
`missing_named_lifetime_spots` stack in push order (the source iterates it
with `.iter().rev()`), `lifetimeNames` the visible lifetime names in set
iteration order. -/
def addMissingLifetimeSpecifiersLabel (text : List Char)
    (missingSpots : List MissingLifetimeSpot) (span : Span) (count : Nat)
    (lifetimeNames : List LtName) (params : List ElisionFailureInfo) :
    List DiagItem :=
  let snippet := spanToSnippet text span
  let base := DiagItem.spanLabel span
    ("expected " ++ (if count == 1 then "named" else toString count) ++
     " lifetime parameter" ++ pluralizeS count)
  let suggestExisting := fun (name sugg : String) =>
    [DiagItem.spanSuggestionVerbose span ("consider using the `" ++ name ++ "` lifetime")
      sugg .MaybeIncorrect]
  let suggestNew := fun (sugg : String) =>
    suggestNewItems text params span sugg missingSpots.reverse
  let rest :=
    match lifetimeNames.length, lifetimeNames.head?, snippet with
    | 1, some name, some "&" => suggestExisting name.name ("&" ++ name.name ++ " ")
    | 1, some name, some "\x27_" => suggestExisting name.name name.name
    | 1, some name, some "" => suggestExisting name.name (strRepeat (name.name ++ ", ") count)
    | 1, some name, some s =>
      if !s.endsWith ">" then
        suggestExisting name.name
          (s ++ "<" ++ String.intercalate ", " (List.replicate count name.name) ++ ">")
      else []
    | 0, _, some "&" =>
      if count == 1 then suggestNew "&\x27a " else []
    | 0, _, some "\x27_" =>
      if count == 1 then suggestNew "\x27a" else []
    | 0, _, some s =>
      if !s.endsWith ">" && count == 1 then suggestNew (s ++ "<\x27a>") else []
    | n, _, snip =>
      if n > 1 then
        [DiagItem.spanNote (lifetimeNames.map (fun lt => lt.span))
          "these named lifetimes are available to use"] ++
        (if snip == some "" then
          [DiagItem.spanSuggestionVerbose span
            "consider using one of the available lifetimes here"
            (strRepeat "\x27lifetime, " count) .HasPlaceholders]
         else [])
      else []
  base :: rest

/-! # Theorems -/

/-! ## Order facts about the candidate-name order -/

theorem charListLeB_total : ∀ a b : List Char, charListLeB a b = true ∨ charListLeB b a = true := by
  intro a
  induction a with
  | nil => intro b; exact Or.inl rfl
  | cons c cs ih =>
    intro b
    cases b with
    | nil => exact Or.inr rfl
    | cons d ds =>
      by_cases hcd : c = d
      · subst hcd
        rcases ih ds with h | h
        · exact Or.inl (by simp [charListLeB, h])
        · exact Or.inr (by simp [charListLeB, h])
      · rcases Nat.lt_trichotomy c.toNat d.toNat with h1 | h1 | h1
        · exact Or.inl (by simp [charListLeB, hcd]; exact Char.lt_def.mpr (by exact_mod_cast h1))
        · exact absurd (Char.ext (UInt32.toNat.inj h1)) hcd
        · refine Or.inr (by simp [charListLeB, Ne.symm hcd]; exact Char.lt_def.mpr (by exact_mod_cast h1))

theorem charListLeB_trans : ∀ a b c : List Char,
    charListLeB a b = true → charListLeB b c = true → charListLeB a c = true := by
  intro a
  induction a with
  | nil => intro b c _ _; rfl
  | cons x xs ih =>
    intro b c hab hbc
    cases b with
    | nil => simp [charListLeB] at hab
    | cons y ys =>
      cases c with
      | nil => simp [charListLeB] at hbc
      | cons z zs =>
        have hx : (x < y) ↔ x.toNat < y.toNat := by exact_mod_cast Char.lt_def
        have hy : (y < z) ↔ y.toNat < z.toNat := by exact_mod_cast Char.lt_def
        have hz : (x < z) ↔ x.toNat < z.toNat := by exact_mod_cast Char.lt_def
        by_cases hxy : x = y <;> by_cases hyz : y = z
        · subst hxy; subst hyz
          simp only [charListLeB, if_pos rfl] at hab hbc ⊢
          exact ih ys zs hab hbc
        · subst hxy
          simpa [charListLeB, hyz] using hbc
        · subst hyz
          simpa [charListLeB, hxy] using hab
        · simp only [charListLeB, if_neg hxy] at hab
          simp only [charListLeB, if_neg hyz] at hbc
          have h1 : x.toNat < y.toNat := hx.mp (of_decide_eq_true hab)
          have h2 : y.toNat < z.toNat := hy.mp (of_decide_eq_true hbc)
          have hxz : x ≠ z := fun he => by
            subst he
            exact absurd (Nat.lt_trans h1 h2) (Nat.lt_irrefl _)
          simp [charListLeB, hxz]
          exact hz.mpr (Nat.lt_trans h1 h2)

theorem charListLeB_antisymm : ∀ a b : List Char,
    charListLeB a b = true → charListLeB b a = true → a = b := by
  intro a
  induction a with
  | nil =>
    intro b _ hba
    cases b with
    | nil => rfl
    | cons d ds => simp [charListLeB] at hba
  | cons c cs ih =>
    intro b hab hba
    cases b with
    | nil => simp [charListLeB] at hab
    | cons d ds =>
      by_cases hcd : c = d
      · subst hcd
        simp only [charListLeB, if_pos rfl] at hab hba
        rw [ih ds hab hba]
      · simp only [charListLeB, if_neg hcd, if_neg (Ne.symm hcd)] at hab hba
        have h1 : c.toNat < d.toNat := by exact_mod_cast Char.lt_def.mp (of_decide_eq_true hab)
        have h2 : d.toNat < c.toNat := by exact_mod_cast Char.lt_def.mp (of_decide_eq_true hba)
        exact absurd h1 (Nat.lt_asymm h2)

/-- The name order as a relation on strings. -/
def strLe (a b : String) : Prop := strLeB a b = true

instance : DecidableRel strLe := fun _ _ => instDecidableEqBool _ _

instance : IsTotal String strLe := ⟨fun a b => charListLeB_total a.toList b.toList⟩

instance : IsTrans String strLe :=
  ⟨fun a b c => charListLeB_trans a.toList b.toList c.toList⟩

instance : IsAntisymm String strLe :=
  ⟨fun a b hab hba => by
    cases a; cases b
    exact String.ext (charListLeB_antisymm _ _ hab hba)⟩

instance : IsTotal TypoSuggestion byName :=
  ⟨fun a b => charListLeB_total a.candidate.toList b.candidate.toList⟩

instance : IsTrans TypoSuggestion byName :=
  ⟨fun a b c => charListLeB_trans a.candidate.toList b.candidate.toList c.candidate.toList⟩

/-! ## The best-match search -/

theorem foldl_best_mem :
    ∀ (l : List (String × Nat)) (acc : Option (String × Nat)) (p : String × Nat),
      l.foldl (fun acc c =>
        match acc with
        | none => some c
        | some b => if c.2 < b.2 then some c else some b) acc = some p →
      acc = some p ∨ p ∈ l := by
  intro l
  induction l with
  | nil => intro acc p h; exact Or.inl h
  | cons c cs ih =>
    intro acc p h
    simp only [List.foldl_cons] at h
    rcases ih _ p h with h' | h'
    · cases acc with
      | none =>
        simp only [Option.some.injEq] at h'
        exact Or.inr (h' ▸ List.mem_cons_self c cs)
      | some b =>
        by_cases hlt : c.2 < b.2
        · simp only [if_pos hlt, Option.some.injEq] at h'
          exact Or.inr (h' ▸ List.mem_cons_self c cs)
        · simp only [if_neg hlt] at h'
          exact Or.inl h'
    · exact Or.inr (List.mem_cons_of_mem c h')

theorem findBestMatchForName_some {names : List String} {lookup f : String}
    (h : findBestMatchForName names lookup none = some f) :
    f ∈ names ∧ levDistance f lookup ≤ typoThreshold lookup := by
  unfold findBestMatchForName at h
  simp only [Option.map_eq_some'] at h
  obtain ⟨p, hp, hpf⟩ := h
  rcases foldl_best_mem _ none p hp with h' | h'
  · cases h'
  · rw [List.mem_filterMap] at h'
    obtain ⟨n, hn, hsome⟩ := h'
    by_cases hle : levDistance n lookup ≤ typoThreshold lookup
    · simp only [if_pos hle, Option.some.injEq] at hsome
      subst hsome
      exact hpf ▸ ⟨hn, hle⟩
    · simp only [if_neg hle] at hsome
      cases hsome

theorem typoChoose_some {names : List TypoSuggestion} {target : String} {s : TypoSuggestion}
    (h : typoChoose names target = some s) :
    s.candidate ≠ target ∧ levDistance s.candidate target ≤ typoThreshold target := by
  unfold typoChoose at h
  split at h
  case _ found heq =>
    split at h
    case isTrue hne =>
      have hcand : s.candidate = found := by
        have := List.find?_some h
        simpa using this
      have hb := findBestMatchForName_some heq
      exact ⟨hcand ▸ hne, hcand ▸ hb.2⟩
    case isFalse => cases h
  case _ => cases h

/-- Claim C3: `lookup_typo_candidate` returns at most one suggestion (an
`Option`); whenever it returns one, the suggested candidate's name differs
from the final segment of the failing path, and its edit distance from that
name is within the matcher's built-in threshold. -/
theorem typo_suggestion_differs_and_within_threshold
    (env : TypoEnv) (ribs : List Rib) (resolvedPrefix : Option ModuleScope)
    (path : List Segment) (filter : Res → Bool) (s : TypoSuggestion)
    (h : lookupTypoCandidate env ribs resolvedPrefix path filter = some s) :
    ∃ lastSeg, path.getLast? = some lastSeg ∧ s.candidate ≠ lastSeg.name ∧
      levDistance s.candidate lastSeg.name ≤ typoThreshold lastSeg.name := by
  unfold lookupTypoCandidate at h
  cases hl : path.getLast? with
  | none => rw [hl] at h; cases h
  | some lastSeg =>
    rw [hl] at h
    obtain ⟨h1, h2⟩ := typoChoose_some h
    exact ⟨lastSeg, rfl, h1, h2⟩

/-- Concrete witness data for the typo-engine claims. -/
def wTypoEnv : TypoEnv := ⟨[], none, []⟩

/-- A one-rib scope with a single local binding `abc`. -/
def wRibs : List Rib := [⟨[("abc", Res.Local 0)], .OtherRibKind⟩]

/-- A bare-identifier path `abd`. -/
def wPath : List Segment := [⟨"abd", ⟨0, 3, false⟩, false⟩]

theorem typo_suggestion_differs_witness :
    ∃ lastSeg, wPath.getLast? = some lastSeg ∧
      (TypoSuggestion.mk "abc" (Res.Local 0)).candidate ≠ lastSeg.name ∧
      levDistance (TypoSuggestion.mk "abc" (Res.Local 0)).candidate lastSeg.name ≤
        typoThreshold lastSeg.name :=
  typo_suggestion_differs_and_within_threshold wTypoEnv wRibs none wPath
    (fun _ => true) ⟨"abc", Res.Local 0⟩ (by decide)

/-! ## Claim C1: determinism of the sorted candidate list and best match -/

theorem sorted_names_of_insertionSort (l : List TypoSuggestion) :
    List.Sorted strLe ((l.insertionSort byName).map (fun s => s.candidate)) := by
  have hs : List.Sorted byName (l.insertionSort byName) :=
    List.sorted_insertionSort byName l
  exact List.Pairwise.map _ (fun a b hab => hab) hs

theorem map_candidate_insertionSort_perm (l : List TypoSuggestion) :
    ((l.insertionSort byName).map (fun s => s.candidate)).Perm
      (l.map (fun s => s.candidate)) :=
  (List.perm_insertionSort byName l).map _

/-- Candidate lists carrying the same multiset of names are sorted to the
same name sequence, regardless of insertion order or attached resolutions. -/
theorem sorted_names_eq_of_name_perm {l₁ l₂ : List TypoSuggestion}
    (hperm : (l₁.map (fun s => s.candidate)).Perm (l₂.map (fun s => s.candidate))) :
    (l₁.insertionSort byName).map (fun s => s.candidate) =
    (l₂.insertionSort byName).map (fun s => s.candidate) :=
  List.eq_of_perm_of_sorted
    ((map_candidate_insertionSort_perm l₁).trans
      (hperm.trans (map_candidate_insertionSort_perm l₂).symm))
    (sorted_names_of_insertionSort l₁) (sorted_names_of_insertionSort l₂)

theorem find?_candidate_map (l : List TypoSuggestion) (f : String) :
    ((l.find? (fun s => s.candidate == f)).map (fun s => s.candidate)) =
      if f ∈ l.map (fun s => s.candidate) then some f else none := by
  induction l with
  | nil => simp
  | cons a l ih =>
    by_cases h : a.candidate = f
    · simp [List.find?_cons, h]
    · simp only [List.find?_cons]
      have hbeq : (a.candidate == f) = false := by
        simpa using h
      simp [hbeq, ih, h, Ne.symm h]

/-- Claim C1 (amended): the typo-candidate list is sorted purely by candidate
name strings, so for two candidate collections with the same names — in any
insertion order and with any attached definition ids — the sorted name
sequence and the *name* of the chosen best match coincide; with byte-equal
inputs the whole computation is a pure function, so two runs are identical.
(Among equal-named candidates, which resolution accompanies the winning name
still follows insertion order: see the counterexample.) -/
theorem typo_sort_pure_function_of_names {l₁ l₂ : List TypoSuggestion} (target : String)
    (hperm : (l₁.map (fun s => s.candidate)).Perm (l₂.map (fun s => s.candidate))) :
    (l₁.insertionSort byName).map (fun s => s.candidate) =
      (l₂.insertionSort byName).map (fun s => s.candidate) ∧
    (typoChoose l₁ target).map (fun s => s.candidate) =
      (typoChoose l₂ target).map (fun s => s.candidate) := by
  have hsort := sorted_names_eq_of_name_perm hperm
  refine ⟨hsort, ?_⟩
  unfold typoChoose
  rw [hsort]
  cases findBestMatchForName ((l₂.insertionSort byName).map (fun s => s.candidate))
      target none with
  | none => rfl
  | some found =>
    by_cases hne : found ≠ target
    · simp only [if_pos hne]
      rw [find?_candidate_map, find?_candidate_map, hsort]
    · simp only [if_neg hne, Option.map_none']

/-- Claim C1 (counterexample to the claim as stated): with two equal-named
candidates carrying different resolutions, reversing insertion order changes
the chosen suggestion (its attached resolution), even though the name
multiset — and hence the sorted name sequence — is unchanged.  The chosen
best match therefore *does* depend on insertion order in this degenerate
case. -/
theorem typo_choose_depends_on_insertion_order :
    (([⟨"x", Res.Local 0⟩, ⟨"x", Res.Local 1⟩] : List TypoSuggestion).map
        (fun s => s.candidate)).Perm
      (([⟨"x", Res.Local 1⟩, ⟨"x", Res.Local 0⟩] : List TypoSuggestion).map
        (fun s => s.candidate)) ∧
    typoChoose [⟨"x", Res.Local 0⟩, ⟨"x", Res.Local 1⟩] "y" ≠
      typoChoose [⟨"x", Res.Local 1⟩, ⟨"x", Res.Local 0⟩] "y" := by
  constructor
  · decide
  · decide

/-! ## Claim C2: the bare-identifier walk stops at the first opaque module -/

/-- Claim C2: over any rib stack, taken innermost-first, whose inner portion
has no opaque (non-block) module boundary, the bare-identifier candidate walk
visits the inner ribs in order (passing through block-module boundaries,
whose module children it also adds), then at the first opaque module
boundary adds that rib's local bindings, the module's own children and — if
the module permits the implicit prelude — the extern-crate roots and the
standard prelude's children, and stops unconditionally: the ribs beyond the
boundary (`outer`) never contribute. -/
theorem typo_walk_stops_at_first_opaque_module
    (env : TypoEnv) (filter : Res → Bool) (inner : List Rib) (stopRib : Rib)
    (m : ModuleScope) (outer : List Rib)
    (hInner : ∀ r ∈ inner, isStopRib r = false)
    (hkind : stopRib.kind = RibKind.ModuleRibKind m)
    (hm : m.kind = ModuleKind.Def) :
    walkRibs env filter (inner ++ stopRib :: outer) =
      inner.flatMap (ribContribution filter) ++
      (ribLocalNames stopRib filter ++ addModuleCandidates m filter ++
       moduleStopNames env m filter) := by
  induction inner with
  | nil =>
    obtain ⟨b, k⟩ := stopRib
    simp only [Rib.kind] at hkind
    subst hkind
    simp [walkRibs, hm]
  | cons r rs ih =>
    have hr := hInner r (List.mem_cons_self r rs)
    have hrs : ∀ x ∈ rs, isStopRib x = false := fun x hx => hInner x (List.mem_cons_of_mem r hx)
    obtain ⟨b, k⟩ := r
    cases k with
    | OtherRibKind =>
      simp [walkRibs, ribContribution, ih hrs, List.append_assoc]
    | ModuleRibKind mm =>
      have hblock : mm.kind = ModuleKind.Block := by
        cases hmk : mm.kind
        · rfl
        · rw [isStopRib] at hr
          simp [hmk] at hr
      simp [walkRibs, ribContribution, hblock, ih hrs, List.append_assoc]

/-- Witness data for Claim C2: two inner ribs (a plain rib and a transparent
block-module rib), an opaque module rib, and an outer rib that must never be
consulted. -/
def wStopEnv : TypoEnv :=
  ⟨[("extcrate", some 7), ("unloaded", none)],
   some ⟨.Def, false, [("preludeItem", Res.Def .Fn ⟨0, 40⟩)]⟩,
   [("bool", PrimTy.Bool)]⟩

/-- The transparent block module of the witness. -/
def wBlockMod : ModuleScope := ⟨.Block, false, [("blockItem", Res.Def .Fn ⟨0, 3⟩)]⟩

/-- The opaque module of the witness. -/
def wOpaqueMod : ModuleScope := ⟨.Def, false, [("modItem", Res.Def .Struct ⟨0, 5⟩)]⟩

/-- The inner ribs of the witness. -/
def wInnerRibs : List Rib :=
  [⟨[("local0", Res.Local 0)], .OtherRibKind⟩,
   ⟨[("local1", Res.Local 1)], .ModuleRibKind wBlockMod⟩]

/-- The stopping rib of the witness. -/
def wStopRib : Rib := ⟨[("local2", Res.Local 2)], .ModuleRibKind wOpaqueMod⟩

/-- The outer ribs of the witness, beyond the opaque boundary. -/
def wOuterRibs : List Rib := [⟨[("unreachable", Res.Local 9)], .OtherRibKind⟩]

theorem typo_walk_stops_witness :
    walkRibs wStopEnv (fun _ => true) (wInnerRibs ++ wStopRib :: wOuterRibs) =
      wInnerRibs.flatMap (ribContribution (fun _ => true)) ++
      (ribLocalNames wStopRib (fun _ => true) ++
       addModuleCandidates wOpaqueMod (fun _ => true) ++
       moduleStopNames wStopEnv wOpaqueMod (fun _ => true)) :=
  typo_walk_stops_at_first_opaque_module wStopEnv (fun _ => true) wInnerRibs wStopRib
    wOpaqueMod wOuterRibs (by decide) rfl rfl

theorem typo_sort_pure_function_witness :
    ((([⟨"b", Res.Local 0⟩, ⟨"a", Res.Local 1⟩] : List TypoSuggestion).insertionSort
        byName).map (fun s => s.candidate) =
      (([⟨"a", Res.Local 7⟩, ⟨"b", Res.Local 9⟩] : List TypoSuggestion).insertionSort
        byName).map (fun s => s.candidate)) ∧
    ((typoChoose [⟨"b", Res.Local 0⟩, ⟨"a", Res.Local 1⟩] "c").map (fun s => s.candidate) =
      (typoChoose [⟨"a", Res.Local 7⟩, ⟨"b", Res.Local 9⟩] "c").map (fun s => s.candidate)) :=
  typo_sort_pure_function_of_names "c" (by decide)

/-! ## Claim C5: `find_module` termination and visit discipline -/

/-- One closure invocation either leaves the traversal state untouched (apart
from possibly recording the result) or pushes exactly one fresh module id,
inserting it into the seen set at the same time. -/
theorem processChild_cases (t : DefId) (s : List String) (st : FindState) (c : ChildBinding) :
    ((processChild t s st c).seen = st.seen ∧
     (processChild t s st c).worklist = st.worklist ∧
     (processChild t s st c).enqueued = st.enqueued) ∨
    (∃ mid, c.subModule = some mid ∧ mid ∉ st.seen ∧
      (processChild t s st c).seen = mid :: st.seen ∧
      (processChild t s st c).worklist = (mid, s ++ [c.ident]) :: st.worklist ∧
      (processChild t s st c).enqueued = st.enqueued ++ [mid]) := by
  unfold processChild
  by_cases h1 : (st.result.isSome || !c.visibleLocally) = true
  · rw [if_pos h1]
    exact Or.inl ⟨rfl, rfl, rfl⟩
  · rw [if_neg h1]
    cases hsub : c.subModule with
    | none => exact Or.inl ⟨rfl, rfl, rfl⟩
    | some mid =>
      dsimp only
      by_cases h2 : mid = t
      · rw [if_pos h2]
        exact Or.inl ⟨rfl, rfl, rfl⟩
      · rw [if_neg h2]
        by_cases h3 : mid ∈ st.seen
        · rw [if_pos h3]
          exact Or.inl ⟨rfl, rfl, rfl⟩
        · rw [if_neg h3]
          exact Or.inr ⟨mid, rfl, h3, rfl, rfl, rfl⟩

/-- The effect of folding the closure over a child list: the seen set grows
by a duplicate-free block of fresh child-module ids, the worklist grows by
exactly as many entries, and the enqueue log records exactly those ids. -/
theorem foldl_processChild_spec (t : DefId) (s : List String) :
    ∀ (cs : List ChildBinding) (st : FindState),
      ∃ new : List DefId,
        (cs.foldl (processChild t s) st).seen = new ++ st.seen ∧
        new.Nodup ∧
        (∀ x ∈ new, x ∉ st.seen) ∧
        (∀ x ∈ new, x ∈ cs.filterMap (fun c => c.subModule)) ∧
        (cs.foldl (processChild t s) st).worklist.length =
          st.worklist.length + new.length ∧
        (cs.foldl (processChild t s) st).enqueued = st.enqueued ++ new.reverse := by
  intro cs
  induction cs with
  | nil =>
    intro st
    exact ⟨[], by simp, List.nodup_nil, by simp, by simp, by simp, by simp⟩
  | cons c cs ih =>
    intro st
    simp only [List.foldl_cons]
    obtain ⟨new', h1, h2, h3, h4, h5, h6⟩ := ih (processChild t s st c)
    rcases processChild_cases t s st c with ⟨e1, e2, e3⟩ | ⟨mid, hsub, hfresh, e1, e2, e3⟩
    · refine ⟨new', by rw [h1, e1], h2, ?_, ?_, ?_, ?_⟩
      · intro x hx; rw [← e1]; exact h3 x hx
      · intro x hx
        have := h4 x hx
        simp only [List.filterMap_cons]
        cases c.subModule with
        | none => exact this
        | some m => exact List.mem_cons_of_mem m this
      · rw [h5, e2]
      · rw [h6, e3]
    · refine ⟨new' ++ [mid], ?_, ?_, ?_, ?_, ?_, ?_⟩
      · rw [h1, e1, List.append_assoc, List.singleton_append]
      · have hmidnew : mid ∉ new' := fun hm => by
          have := h3 mid hm
          rw [e1] at this
          exact this (List.mem_cons_self mid st.seen)
        exact List.Nodup.append h2 (List.nodup_singleton mid)
          (by intro x hx hy
              simp only [List.mem_singleton] at hy
              subst hy
              exact hmidnew hx)
      · intro x hx
        rcases List.mem_append.mp hx with hx | hx
        · have := h3 x hx
          rw [e1] at this
          intro hxs
          exact this (List.mem_cons_of_mem mid hxs)
        · simp only [List.mem_singleton] at hx
          subst hx
          exact hfresh
      · intro x hx
        rcases List.mem_append.mp hx with hx | hx
        · have := h4 x hx
          simp only [List.filterMap_cons, hsub]
          exact List.mem_cons_of_mem mid this
        · simp only [List.mem_singleton] at hx
          subst hx
          simp [List.filterMap_cons, hsub]
      · simp only [h5, e2, List.length_cons, List.length_append, List.length_nil]
        omega
      · rw [h6, e3, List.append_assoc, List.reverse_append]
        simp

/-- The children of any one module number at most `totalChildren` of the
graph. -/
theorem childrenOf_length_le (g : ModGraph) (id : DefId) :
    (g.childrenOf id).length ≤ totalChildren g := by
  unfold ModGraph.childrenOf
  cases hf : g.mods.find? (fun e => e.1 == id) with
  | none => simp
  | some e =>
    simp only [Option.map_some', Option.getD_some]
    have he : e ∈ g.mods := List.mem_of_find?_eq_some hf
    exact List.single_le_sum (by intro x _; exact Nat.zero_le x) _
      (List.mem_map_of_mem (fun e => e.2.children.length) he)

/-- Every child-module id of any module occurs in `allSubIds`. -/
theorem childrenOf_subIds_subset (g : ModGraph) (id : DefId) :
    ∀ x ∈ (g.childrenOf id).filterMap (fun c => c.subModule), x ∈ allSubIds g := by
  intro x hx
  unfold ModGraph.childrenOf at hx
  cases hf : g.mods.find? (fun e => e.1 == id) with
  | none => rw [hf] at hx; simp at hx
  | some e =>
    rw [hf] at hx
    simp only [Option.map_some', Option.getD_some] at hx
    have he : e ∈ g.mods := List.mem_of_find?_eq_some hf
    unfold allSubIds
    exact List.mem_flatMap.mpr ⟨e, he, hx⟩

/-- A duplicate-free list included in `L` is no longer than `L.dedup`. -/
theorem nodup_subset_length_le {α : Type} [DecidableEq α] {l L : List α}
    (hn : l.Nodup) (hs : ∀ x ∈ l, x ∈ L) : l.length ≤ L.dedup.length := by
  have h1 : l.length = l.toFinset.card := (List.toFinset_card_of_nodup hn).symm
  have h2 : l.toFinset ⊆ L.toFinset := by
    intro x hx
    rw [List.mem_toFinset] at hx ⊢
    exact hs x hx
  have h3 : L.toFinset.card = L.dedup.length := List.card_toFinset L
  rw [h1, ← h3]
  exact Finset.card_le_card h2

/-- The loop invariant: the seen set is duplicate-free, holds only child
module ids of the graph, and the enqueue log is exactly the root followed by
the seen insertions in order. -/
def FindInv (g : ModGraph) (st : FindState) : Prop :=
  st.seen.Nodup ∧ (∀ x ∈ st.seen, x ∈ allSubIds g) ∧
  st.enqueued = g.root :: st.seen.reverse

/-- The termination measure of the worklist loop. -/
def findMeasure (g : ModGraph) (st : FindState) : Nat :=
  ((allSubIds g).dedup.length - st.seen.length) * (totalChildren g + 1) +
    st.worklist.length

/-- One pop-and-fold step preserves the invariant and strictly decreases the
measure. -/
theorem findStep_spec (g : ModGraph) (t : DefId) (id : DefId) (segs : List String)
    (rest : List (DefId × List String)) (st : FindState)
    (hwl : st.worklist = (id, segs) :: rest) (hinv : FindInv g st) :
    FindInv g ((g.childrenOf id).foldl (processChild t segs) { st with worklist := rest }) ∧
    findMeasure g ((g.childrenOf id).foldl (processChild t segs) { st with worklist := rest }) <
      findMeasure g st := by
  obtain ⟨hnodup, hsub, henq⟩ := hinv
  obtain ⟨new, h1, h2, h3, h4, h5, h6⟩ :=
    foldl_processChild_spec t segs (g.childrenOf id) { st with worklist := rest }
  have hnewsub : ∀ x ∈ new, x ∈ allSubIds g := fun x hx =>
    childrenOf_subIds_subset g id x (h4 x hx)
  have hseen' : ∀ x ∈ new ++ st.seen, x ∈ allSubIds g := by
    intro x hx
    rcases List.mem_append.mp hx with hx | hx
    · exact hnewsub x hx
    · exact hsub x hx
  have hnodup' : (new ++ st.seen).Nodup :=
    List.Nodup.append h2 hnodup (fun x hx hy => h3 x hx hy)
  constructor
  · refine ⟨h1 ▸ hnodup', ?_, ?_⟩
    · intro x hx; rw [h1] at hx; exact hseen' x hx
    · rw [h6, h1]
      simp only [henq]
      rw [List.reverse_append]
      simp
  · -- measure arithmetic
    have hlen : new.length ≤ totalChildren g := by
      have hle1 : new.length ≤ ((g.childrenOf id).filterMap (fun c => c.subModule)).length := by
        classical
        calc new.length = new.toFinset.card := (List.toFinset_card_of_nodup h2).symm
        _ ≤ ((g.childrenOf id).filterMap (fun c => c.subModule)).toFinset.card := by
            apply Finset.card_le_card
            intro x hx
            rw [List.mem_toFinset] at hx ⊢
            exact h4 x hx
        _ ≤ ((g.childrenOf id).filterMap (fun c => c.subModule)).length :=
            List.toFinset_card_le _
      have hle2 : ((g.childrenOf id).filterMap (fun c => c.subModule)).length ≤
          (g.childrenOf id).length := List.length_filterMap_le _ _
      exact Nat.le_trans hle1 (Nat.le_trans hle2 (childrenOf_length_le g id))
    have hcap2 : new.length + st.seen.length ≤ (allSubIds g).dedup.length := by
      have := nodup_subset_length_le hnodup' hseen'
      simpa [List.length_append] using this
    unfold findMeasure
    rw [h1, h5, hwl]
    dsimp only
    simp only [List.length_append, List.length_cons]
    have h9 : (allSubIds g).dedup.length - (new.length + st.seen.length) =
        ((allSubIds g).dedup.length - st.seen.length) - new.length := by omega
    rw [h9, Nat.sub_mul]
    have h7 : new.length * (totalChildren g + 1) ≤
        ((allSubIds g).dedup.length - st.seen.length) * (totalChildren g + 1) :=
      Nat.mul_le_mul_right _ (by omega)
    have h8 : new.length ≤ new.length * (totalChildren g + 1) :=
      Nat.le_mul_of_pos_right _ (by omega)
    omega

/-- The loop leaves fuel over whenever the measure is below the fuel, and its
enqueue log is the root followed by the duplicate-free seen insertions. -/
theorem findModuleLoop_spec (g : ModGraph) (t : DefId) :
    ∀ (fuel : Nat) (st : FindState), FindInv g st → findMeasure g st < fuel →
      (findModuleLoop g t fuel st).1 ≠ .outOfFuel ∧
      (∃ e, (findModuleLoop g t fuel st).2 = g.root :: e ∧ e.Nodup) := by
  intro fuel
  induction fuel with
  | zero => intro st _ hm; exact absurd hm (Nat.not_lt_zero _)
  | succ fuel ih =>
    intro st hinv hm
    obtain ⟨hnodup, hsub, henq⟩ := hinv
    unfold findModuleLoop
    cases hwl : st.worklist with
    | nil =>
      cases hres : st.result with
      | some r =>
        refine ⟨by simp, ⟨st.seen.reverse, by simp [henq], List.nodup_reverse.mpr hnodup⟩⟩
      | none =>
        refine ⟨by simp, ⟨st.seen.reverse, by simp [henq], List.nodup_reverse.mpr hnodup⟩⟩
    | cons top rest =>
      obtain ⟨id, segs⟩ := top
      cases hres : st.result with
      | some r =>
        refine ⟨by simp, ⟨st.seen.reverse, by simp [henq], List.nodup_reverse.mpr hnodup⟩⟩
      | none =>
        have hstep := findStep_spec g t id segs rest st hwl ⟨hnodup, hsub, henq⟩
        rw [hres] at hstep
        have hm' : findMeasure g ((g.childrenOf id).foldl (processChild t segs)
            ⟨none, st.seen, rest, st.enqueued⟩) < fuel := by
          have h2 := hstep.2
          omega
        exact ih _ hstep.1 hm'

/-- Claim C5: the module-subtree search terminates on every module graph
(the fuel bound is never exhausted), its seen-set discipline enqueues beyond
the initial root only a duplicate-free sequence of module ids (so no module
is enqueued twice via the seen set, even with several re-export edges into
the same module), bindings that are not locally visible are never followed,
and as soon as a result is recorded every further loop step returns it
unchanged. -/
theorem find_module_terminates_and_visits_once (g : ModGraph) (target : DefId) :
    (findModule g target ≠ .outOfFuel ∧
     ∃ e, findModuleLog g target = g.root :: e ∧ e.Nodup) ∧
    (∀ (c : ChildBinding), c.visibleLocally = false →
      ∀ (segs : List String) (st : FindState), processChild target segs st c = st) ∧
    (∀ (fuel : Nat) (st : FindState) (r : DefId × ImportSuggestion),
      st.result = some r →
      (findModuleLoop g target (fuel + 1) st).1 = .found r.1 r.2) := by
  refine ⟨?_, ?_, ?_⟩
  · have hinv : FindInv g (findModuleInit g) := by
      unfold FindInv findModuleInit
      exact ⟨List.nodup_nil, ⟨fun x hx => absurd hx (List.not_mem_nil x), rfl⟩⟩
    have hm : findMeasure g (findModuleInit g) < findModuleFuel g := by
      unfold findMeasure findModuleFuel findModuleInit
      simp
    have := findModuleLoop_spec g target (findModuleFuel g) (findModuleInit g) hinv hm
    exact ⟨this.1, this.2⟩
  · intro c hvis segs st
    unfold processChild
    rw [hvis]
    simp
  · intro fuel st r hres
    unfold findModuleLoop
    cases hwl : st.worklist with
    | nil => rw [hres]
    | cons top rest => obtain ⟨id, segs⟩ := top; rw [hres]

/-- The regression graph of Claim C5: two re-export edges (`a` and `b`) into
the same module `m1`, a locally invisible binding into `m3`, and the search
target `m2` one level below `m1`. -/
def wGraphRoot : DefId := ⟨0, 0⟩

/-- Re-exported module id of the witness graph. -/
def wGraphM1 : DefId := ⟨0, 1⟩

/-- Search target of the witness graph. -/
def wGraphM2 : DefId := ⟨0, 2⟩

/-- Invisible module id of the witness graph. -/
def wGraphM3 : DefId := ⟨0, 3⟩

/-- A throwaway span for the witness graph. -/
def wGraphSpan : Span := ⟨0, 0, false⟩

/-- The witness module graph. -/
def wGraph : ModGraph :=
  ⟨wGraphRoot,
   [(wGraphRoot,
     ⟨[⟨"a", true, some wGraphM1, wGraphSpan, Res.Def .Mod wGraphM1⟩,
       ⟨"b", true, some wGraphM1, wGraphSpan, Res.Def .Mod wGraphM1⟩,
       ⟨"hidden", false, some wGraphM3, wGraphSpan, Res.Def .Mod wGraphM3⟩]⟩),
    (wGraphM1, ⟨[⟨"c", true, some wGraphM2, wGraphSpan, Res.Def .Mod wGraphM2⟩]⟩),
    (wGraphM2, ⟨[]⟩)]⟩

/-- The import suggestion the witness search produces. -/
def wGraphSugg : ImportSuggestion :=
  ⟨some wGraphM2, "module", ⟨wGraphSpan, ["a", "c"]⟩, true⟩

theorem find_module_witness :
    findModule wGraph wGraphM2 = .found wGraphM2 wGraphSugg ∧
    findModule wGraph wGraphM2 ≠ .outOfFuel ∧
    findModuleLog wGraph wGraphM2 = [wGraphRoot, wGraphM1] ∧
    processChild wGraphM2 [] ⟨none, [], [], []⟩
      ⟨"hidden", false, some wGraphM3, wGraphSpan, Res.Def .Mod wGraphM3⟩ =
      ⟨none, [], [], []⟩ ∧
    (findModuleLoop wGraph wGraphM2 1
        ⟨some (wGraphM2, wGraphSugg), [], [(wGraphM1, [])], [wGraphRoot]⟩).1 =
      .found wGraphM2 wGraphSugg :=
  ⟨by decide,
   (find_module_terminates_and_visits_once wGraph wGraphM2).1.1,
   by decide,
   (find_module_terminates_and_visits_once wGraph wGraphM2).2.1 _ rfl [] _,
   (find_module_terminates_and_visits_once wGraph wGraphM2).2.2 0 _ (wGraphM2, wGraphSugg) rfl⟩

/-! ## Claim C6: struct-literal parenthesization -/

/-- Claim C6: in the struct-as-value case with no parent expression
(`PathSource::Expr(None)`), when the failing span is followed — after the
whitespace skip — by an opening brace, then: if the forward scan (bounded to
the 100-iteration cap inside `followed_by_brace`) finds a closing brace, the
suggestion is exactly the two-part edit inserting `(` before and `)` after
the span covering the whole literal; if the scan finds none, the suggestion
is exactly the textual hint, and no multi-part edit is emitted. -/
theorem struct_literal_paren_two_part_edit
    (env : Env) (span : Span) (pathStr : String) (defId : DefId)
    (hfb : (followedByBrace env.text span).1 = true) :
    (∀ cb, (followedByBrace env.text span).2 = some cb →
      badStructSyntaxItems env span (.expr none) pathStr defId =
        [DiagItem.multipartSuggestion "surround the struct literal with parentheses"
          [(cb.shrinkToLo, "("), (cb.shrinkToHi, ")")] .MaybeIncorrect]) ∧
    ((followedByBrace env.text span).2 = none →
      badStructSyntaxItems env span (.expr none) pathStr defId =
        [DiagItem.spanLabel span
          ("you might want to surround a struct literal with parentheses: `(" ++
           pathStr ++ " \x7b /* fields */ \x7d)`?")] ∧
      ∀ it ∈ badStructSyntaxItems env span (.expr none) pathStr defId,
        ∀ msg parts app, it ≠ DiagItem.multipartSuggestion msg parts app) := by
  constructor
  · intro cb hcb
    simp [badStructSyntaxItems, hfb, hcb]
  · intro hcb
    have heq : badStructSyntaxItems env span (.expr none) pathStr defId =
        [DiagItem.spanLabel span
          ("you might want to surround a struct literal with parentheses: `(" ++
           pathStr ++ " \x7b /* fields */ \x7d)`?")] := by
      simp [badStructSyntaxItems, hfb, hcb]
    refine ⟨heq, ?_⟩
    intro it hit msg parts app
    rw [heq] at hit
    simp only [List.mem_singleton] at hit
    subst hit
    simp

/-- Witness environment for Claim C6: all resolver collaborators are
irrelevant to `bad_struct_syntax_suggestion` except the source text. -/
def wBraceEnv (text : List Char) : Env :=
  ⟨text, ⟨[], none, []⟩, fun _ => [], none, none, ⟨⟨0, 0⟩, []⟩, fun _ => false, "", fun _ => "",
   fun _ => "", false, false, [], [], none, false, false, fun _ => none, fun _ => none, [],
   ⟨none, none, none, false⟩⟩

theorem struct_literal_paren_witness :
    badStructSyntaxItems (wBraceEnv "X \x7b\x7d".toList) ⟨0, 1, false⟩ (.expr none) "Foo" ⟨0, 0⟩ =
      [DiagItem.multipartSuggestion "surround the struct literal with parentheses"
        [(⟨0, 0, false⟩, "("), (⟨4, 4, false⟩, ")")] .MaybeIncorrect] ∧
    badStructSyntaxItems (wBraceEnv "X \x7b  ".toList) ⟨0, 1, false⟩ (.expr none) "Foo" ⟨0, 0⟩ =
      [DiagItem.spanLabel ⟨0, 1, false⟩
        ("you might want to surround a struct literal with parentheses: `(" ++
         "Foo" ++ " \x7b /* fields */ \x7d)`?")] := by
  constructor
  · have h := (struct_literal_paren_two_part_edit (wBraceEnv "X \x7b\x7d".toList)
      ⟨0, 1, false⟩ "Foo" ⟨0, 0⟩ (by
        simp [wBraceEnv, followedByBrace, wsLoop, braceLoop, spanToSnippet, nextPoint])).1
      ⟨0, 4, false⟩ (by
        simp [wBraceEnv, followedByBrace, wsLoop, braceLoop, spanToSnippet, nextPoint,
          Span.toSpan])
    simpa [Span.shrinkToLo, Span.shrinkToHi] using h
  · exact ((struct_literal_paren_two_part_edit (wBraceEnv "X \x7b  ".toList)
      ⟨0, 1, false⟩ "Foo" ⟨0, 0⟩ (by
        simp [wBraceEnv, followedByBrace, wsLoop, braceLoop, spanToSnippet, nextPoint])).2
      (by
        simp [wBraceEnv, followedByBrace, wsLoop, braceLoop, spanToSnippet, nextPoint])).1

/-! ## Claim C7: the elision-count decision table, bare-sigil rows -/

/-- Claim C7: with exactly one visible lifetime name and a bare `&` snippet
at the elided position, the diagnosis proposes `&'x ` in place (as a verbose
suggestion at that span); with no visible names, the same snippet and an
expected count of one, it introduces a fresh `'a` at the innermost binder
spot (before the first non-synthetic parameter, or as a fresh `<'a>` list)
and rewrites the elided position to `&'a ` in the same multi-part edit. -/
theorem lifetime_elision_bare_sigil_rows
    (text : List Char) (missingSpots restSpots : List MissingLifetimeSpot)
    (span : Span) (count : Nat) (params : List ElisionFailureInfo) (name : LtName)
    (ps : List HirGenericParam) (gspan : Span) :
    (spanToSnippet text span = some "&" →
      addMissingLifetimeSpecifiersLabel text missingSpots span count [name] params =
        [DiagItem.spanLabel span
          ("expected " ++ (if count == 1 then "named" else toString count) ++
           " lifetime parameter" ++ pluralizeS count),
         DiagItem.spanSuggestionVerbose span
          ("consider using the `" ++ name.name ++ "` lifetime")
          ("&" ++ name.name ++ " ") .MaybeIncorrect]) ∧
    (spanToSnippet text span = some "&" → count = 1 →
      missingSpots.reverse = MissingLifetimeSpot.Generics ps gspan :: restSpots →
      addMissingLifetimeSpecifiersLabel text missingSpots span count [] params =
        [DiagItem.spanLabel span "expected named lifetime parameter",
         DiagItem.multipartSuggestion "consider introducing a named lifetime parameter"
          ((match ps.find? (fun p => !p.syntheticImplTrait) with
            | some p => (p.span.shrinkToLo, "\x27a, ")
            | none => (gspan, "<\x27a>")) ::
           (elisionParamParts text params ++ [(span, "&\x27a ")])) .MaybeIncorrect]) := by
  constructor
  · intro hsnip
    simp [addMissingLifetimeSpecifiersLabel, hsnip]
  · intro hsnip hcount hrev
    subst hcount
    simp [addMissingLifetimeSpecifiersLabel, hsnip, hrev, suggestNewItems, pluralizeS]

/-- Witness source text for Claim C7: a single `&`. -/
def wLtText : List Char := "&".toList

/-- Witness binder stack for Claim C7: one generics list with one
non-synthetic parameter. -/
def wLtSpots : List MissingLifetimeSpot :=
  [.Generics [⟨⟨5, 9, false⟩, false⟩] ⟨4, 10, false⟩]

theorem lifetime_elision_bare_sigil_witness :
    addMissingLifetimeSpecifiersLabel wLtText wLtSpots ⟨0, 1, false⟩ 1
        [⟨"\x27x", ⟨7, 9, false⟩⟩] [] =
      [DiagItem.spanLabel ⟨0, 1, false⟩ "expected named lifetime parameter",
       DiagItem.spanSuggestionVerbose ⟨0, 1, false⟩
        "consider using the `\x27x` lifetime" "&\x27x " .MaybeIncorrect] ∧
    addMissingLifetimeSpecifiersLabel wLtText wLtSpots ⟨0, 1, false⟩ 1 [] [] =
      [DiagItem.spanLabel ⟨0, 1, false⟩ "expected named lifetime parameter",
       DiagItem.multipartSuggestion "consider introducing a named lifetime parameter"
        [(⟨5, 5, false⟩, "\x27a, "), (⟨0, 1, false⟩, "&\x27a ")] .MaybeIncorrect] := by
  constructor
  · have h := (lifetime_elision_bare_sigil_rows wLtText wLtSpots [] ⟨0, 1, false⟩ 1 []
      ⟨"\x27x", ⟨7, 9, false⟩⟩ [] ⟨0, 0, false⟩).1 (by decide)
    simpa using h
  · have h := (lifetime_elision_bare_sigil_rows wLtText wLtSpots [] ⟨0, 1, false⟩ 1 []
      ⟨"\x27x", ⟨7, 9, false⟩⟩ [⟨⟨5, 9, false⟩, false⟩] ⟨4, 10, false⟩).2
      (by decide) rfl (by decide)
    simpa [elisionParamParts, Span.shrinkToLo] using h

/-! ## Claim C9: the missing-type-parameter heuristic -/

/-- Claim C9 (amended): a generic-parameter insertion is returned only for a
single-segment path without generic args that is a single uppercase letter or
occurs while processing a generics list, inside an item whose kind carries a
generics list that does not overlap the failing span; the suggestion appends
`, X` after the last parameter/bound, or proposes a fresh `<X>` list on the
generics span when the parameter list is empty; and it is skipped whenever
the chosen *insertion* span (not the failing span) originated from macro
expansion. -/
theorem report_missing_type_param_conditions
    (dm : DiagMeta) (path : List Segment) (sp : Span) (msg sugg : String)
    (app : Applicability)
    (h : reportMissingTypeError dm path = some (sp, msg, sugg, app)) :
    ∃ seg, path = [seg] ∧ seg.hasGenericArgs = false ∧
      (dm.currentlyProcessingGenerics = true ∨ isSingleUppercase seg.name = true) ∧
      ∃ item generics, dm.currentItem = some item ∧
        item.kind.generics = some generics ∧
        seg.span.overlapsB generics.span = false ∧
        msg = "you might be missing a type parameter" ∧ app = .MaybeIncorrect ∧
        ∃ insSpan, sp = insSpan.shrinkToHi ∧ insSpan.expn = false ∧
          ((generics.params ≠ [] ∧ sugg = ", " ++ seg.name) ∨
           (generics.params = [] ∧ sugg = "<" ++ seg.name ++ ">" ∧
            insSpan = generics.span)) := by
  cases path with
  | nil => simp [reportMissingTypeError] at h
  | cons seg rest =>
    cases rest with
    | cons b l => simp [reportMissingTypeError] at h
    | nil =>
      refine ⟨seg, rfl, ?_⟩
      unfold reportMissingTypeError at h
      dsimp only at h
      by_cases hga : seg.hasGenericArgs
      · rw [if_pos hga] at h; cases h
      · rw [if_neg hga] at h
        refine ⟨by simpa using hga, ?_⟩
        by_cases hcond :
            (!dm.currentlyProcessingGenerics && !isSingleUppercase seg.name) = true
        · rw [if_pos hcond] at h; cases h
        · rw [if_neg hcond] at h
          have hdisj : dm.currentlyProcessingGenerics = true ∨
              isSingleUppercase seg.name = true := by
            cases hp : dm.currentlyProcessingGenerics with
            | true => exact Or.inl rfl
            | false =>
              cases hu : isSingleUppercase seg.name with
              | true => exact Or.inr rfl
              | false => exact absurd (by simp [hp, hu]) hcond
          refine ⟨hdisj, ?_⟩
          cases hitem : dm.currentItem with
          | none => rw [hitem] at h; exact absurd h (by simp)
          | some item =>
            rw [hitem] at h
            dsimp only at h
            refine ⟨item, ?_⟩
            by_cases hmain : ((match item.kind with
                | ItemKind.fnKind _ => true
                | _ => false) && item.ident == "main") = true
            · rw [if_pos hmain] at h; cases h
            · rw [if_neg hmain] at h
              by_cases hkindok : ((match item.kind with
                  | ItemKind.fnKind _ => true
                  | ItemKind.enumKind _ => true
                  | ItemKind.structKind _ => true
                  | ItemKind.unionKind _ => true
                  | _ => false) && isSingleUppercase seg.name
                  || !isSingleUppercase seg.name) = true
              rotate_left
              · rw [if_neg hkindok] at h; cases h
              · rw [if_pos hkindok] at h
                cases hgen : item.kind.generics with
                | none => rw [hgen] at h; exact absurd h (by simp)
                | some generics =>
                  rw [hgen] at h
                  dsimp only at h
                  refine ⟨generics, rfl, rfl, ?_⟩
                  by_cases hov : seg.span.overlapsB generics.span = true
                  · rw [if_pos (by simpa using hov)] at h; cases h
                  · rw [if_neg (by simpa using hov)] at h
                    refine ⟨by simpa using hov, ?_⟩
                    cases hlast : generics.params.getLast? with
                    | some param =>
                      rw [hlast] at h
                      dsimp only at h
                      split at h
                      · rename_i hexp
                        simp only [Option.some.injEq, Prod.mk.injEq] at h
                        obtain ⟨h1, h2, h3, h4⟩ := h
                        refine ⟨h2.symm, h4.symm,
                          (match param.bounds.getLast? with
                           | some bspan => bspan
                           | none => param.identSpan), h1.symm,
                          by simpa using hexp, ?_⟩
                        refine Or.inl ⟨?_, h3.symm⟩
                        intro hnil
                        rw [hnil] at hlast
                        cases hlast
                      · cases h
                    | none =>
                      rw [hlast] at h
                      dsimp only at h
                      split at h
                      · rename_i hexp
                        simp only [Option.some.injEq, Prod.mk.injEq] at h
                        obtain ⟨h1, h2, h3, h4⟩ := h
                        exact ⟨h2.symm, h4.symm, generics.span, h1.symm,
                          by simpa using hexp,
                          Or.inr ⟨List.getLast?_eq_none_iff.mp hlast, h3.symm, rfl⟩⟩
                      · cases h

/-- Concrete metadata for Claim C9: a non-main function item with an empty
generics list whose span does not come from expansion. -/
def wTypeParamDm : DiagMeta :=
  ⟨none, none, some ⟨.fnKind ⟨[], ⟨10, 12, false⟩⟩, "foo"⟩, false⟩

/-- Claim C9 (counterexample to the claim as stated): the failing span comes
from macro expansion (`expn = true`), yet the suggestion is still produced,
because the source checks `from_expansion` on the shadowed *insertion* span
inside the generics, not on the failing span. -/
theorem report_missing_type_param_expansion_counterexample :
    (Segment.mk "T" ⟨20, 21, true⟩ false).span.expn = true ∧
    reportMissingTypeError wTypeParamDm [⟨"T", ⟨20, 21, true⟩, false⟩] =
      some (⟨12, 12, false⟩, "you might be missing a type parameter", "<T>",
        .MaybeIncorrect) := by
  constructor
  · rfl
  · decide

theorem report_missing_type_param_witness :
    ∃ seg, ([(⟨"T", ⟨20, 21, false⟩, false⟩ : Segment)] : List Segment) = [seg] ∧
      seg.hasGenericArgs = false ∧
      (wTypeParamDm.currentlyProcessingGenerics = true ∨
        isSingleUppercase seg.name = true) ∧
      ∃ item generics, wTypeParamDm.currentItem = some item ∧
        item.kind.generics = some generics ∧
        seg.span.overlapsB generics.span = false ∧
        "you might be missing a type parameter" = "you might be missing a type parameter" ∧
        (Applicability.MaybeIncorrect = Applicability.MaybeIncorrect) ∧
        ∃ insSpan, (⟨12, 12, false⟩ : Span) = insSpan.shrinkToHi ∧ insSpan.expn = false ∧
          ((generics.params ≠ [] ∧ "<T>" = ", " ++ seg.name) ∨
           (generics.params = [] ∧ "<T>" = "<" ++ seg.name ++ ">" ∧
            insSpan = generics.span)) :=
  report_missing_type_param_conditions wTypeParamDm
    [⟨"T", ⟨20, 21, false⟩, false⟩] ⟨12, 12, false⟩
    "you might be missing a type parameter" "<T>" .MaybeIncorrect (by decide)

/-! ## Claim C10: non-empty-path precondition -/

/-- Claim C10: `smart_resolve_report_errors` unconditionally unwraps
`path.last()`, so it is defined (returns a diagnostic) exactly for non-empty
paths; on an empty path it panics — modelled as `none` — instead of
degrading to a fallback diagnostic. -/
theorem smart_resolve_defined_iff_nonempty_path :
    (∀ (env : Env) (span : Span) (source : PathSource) (res : Option Res),
      smartResolveReportErrors env [] span source res = none) ∧
    (∀ (env : Env) (path : List Segment) (span : Span) (source : PathSource)
        (res : Option Res), path ≠ [] →
      (smartResolveReportErrors env path span source res).isSome = true) := by
  constructor
  · intro env span source res
    rfl
  · intro env path span source res hne
    unfold smartResolveReportErrors
    obtain ⟨l, hl⟩ := Option.isSome_iff_exists.mp (List.getLast?_isSome.mpr hne)
    rw [hl]
    dsimp only
    by_cases h1 : isSelfType path (pathSourceNamespace source) = true
    · rw [if_pos h1]; rfl
    · rw [if_neg h1]
      by_cases h2 : isSelfValue path (pathSourceNamespace source) = true
      · rw [if_pos h2]; rfl
      · rw [if_neg h2]
        by_cases h3 : (path.length = 1 && env.selfTypeAvail) = true
        · rw [if_pos h3]
          cases env.assocCandidate with
          | some cand => rfl
          | none =>
            cases callHasSelfArg source with
            | some x => obtain ⟨a, b⟩ := x; rfl
            | none => rfl
        · rw [if_neg h3]; rfl

/-- A plain environment for the witnesses on `smart_resolve_report_errors`:
no candidates, no special availability, a one-character source text. -/
def wPlainEnv : Env :=
  ⟨"x".toList, ⟨[], none, []⟩, fun _ => [], none, none, ⟨⟨0, 0⟩, []⟩, fun _ => false,
   "value", fun _ => "E0425", fun _ => "", false, false, [], [], none, false, false,
   fun _ => none, fun _ => none, [], ⟨none, none, none, false⟩⟩

theorem smart_resolve_nonempty_path_witness :
    (smartResolveReportErrors wPlainEnv [⟨"foo", ⟨0, 1, false⟩, false⟩] ⟨0, 1, false⟩
      .typeSrc none).isSome = true :=
  smart_resolve_defined_iff_nonempty_path.2 wPlainEnv [⟨"foo", ⟨0, 1, false⟩, false⟩]
    ⟨0, 1, false⟩ .typeSrc none (by decide)

/-! ## Claim C8: the `self`/`Self` short-circuit -/

/-- The sub-diagnostic kinds that carry a rewrite suggestion.  The
`spanSuggestionShort` used by the fake-`self` hint (which runs *before* the
short-circuit) is deliberately excluded. -/
def DiagItem.isSuggestionLike : DiagItem → Bool
  | .spanSuggestion _ _ _ _ => true
  | .spanSuggestions _ _ _ _ => true
  | .spanSuggestionVerbose _ _ _ _ => true
  | .multipartSuggestion _ _ _ => true
  | _ => false

/-- Claim C8: for a failing path that is exactly `self` in the value
namespace, the diagnosis sets the dedicated code E0424, attaches the
source-keyed explanation (pattern position vs. anything else) and — when an
enclosing function exists — the receiver-parameter inspection label, and
returns immediately with an empty import-candidate list, an empty tail-stage
trace (so neither the typo engine nor the contextual dispatch ran), and no
suggestion-bearing sub-diagnostic; for exactly `Self` in the type namespace,
likewise with code E0411 and its fixed label. -/
theorem self_keyword_short_circuit (env : Env) (path : List Segment) (span : Span)
    (source : PathSource) (res : Option Res) :
    (isSelfValue path (pathSourceNamespace source) = true →
      ∃ r, smartResolveReportErrors env path span source res = some r ∧
        r.candidates = [] ∧ r.stages = [] ∧ r.err.code = "E0424" ∧
        DiagItem.spanLabel span
          (match source with
           | .pat => "`self` value is a keyword and may not be bound to variables or shadowed"
           | _ => "`self` value is a keyword only available in methods with a `self` parameter")
          ∈ r.err.sub ∧
        (∀ f, env.dm.currentFunction = some f →
          DiagItem.spanLabel f.span
            (if f.hasSelfParam then
              "this function has a `self` parameter, but a macro invocation can only access identifiers it receives from parameters"
             else "this function doesn\x27t have a `self` parameter") ∈ r.err.sub) ∧
        (∀ it ∈ r.err.sub, it.isSuggestionLike = false)) ∧
    (isSelfType path (pathSourceNamespace source) = true →
      ∃ r, smartResolveReportErrors env path span source res = some r ∧
        r.candidates = [] ∧ r.stages = [] ∧ r.err.code = "E0411" ∧
        DiagItem.spanLabel span
          "`Self` is only available in impls, traits, and type definitions" ∈ r.err.sub ∧
        (∀ it ∈ r.err.sub, it.isSuggestionLike = false)) := by
  constructor
  · intro hsv
    cases path with
    | nil => simp [isSelfValue] at hsv
    | cons seg rest =>
      cases rest with
      | cons b l => simp [isSelfValue] at hsv
      | nil =>
        have hparts : pathSourceNamespace source = .ValueNS ∧ seg.name = "self" := by
          simpa [isSelfValue] using hsv
        obtain ⟨hns, hname⟩ := hparts
        have hst : ¬ isSelfType [seg] (pathSourceNamespace source) = true := by
          simp [isSelfType, hns]
        unfold smartResolveReportErrors
        have hg : ([seg] : List Segment).getLast? = some seg := rfl
        rw [hg]
        dsimp only
        rw [if_neg hst, if_pos hsv, hname]
        rw [if_neg (show ¬ (((("self" : String) == "this" || ("self" : String) == "my") &&
          env.selfValueAvail) = true) by simp)]
        cases hf : env.dm.currentFunction with
        | none =>
          refine ⟨_, rfl, rfl, rfl, rfl, ?_, ?_, ?_⟩
          · simp
          · intro f hf'; cases hf'
          · intro it hit
            simp only [List.nil_append, List.mem_singleton] at hit
            subst hit
            rfl
        | some f0 =>
          refine ⟨_, rfl, rfl, rfl, rfl, ?_, ?_, ?_⟩
          · simp
          · intro f hf'
            cases hf'
            simp
          · intro it hit
            simp only [List.nil_append, List.mem_append, List.mem_singleton] at hit
            rcases hit with hit | hit <;> subst hit <;> rfl
  · intro hst
    cases path with
    | nil => simp [isSelfType] at hst
    | cons seg rest =>
      cases rest with
      | cons b l => simp [isSelfType] at hst
      | nil =>
        have hparts : pathSourceNamespace source = .TypeNS ∧ seg.name = "Self" := by
          simpa [isSelfType] using hst
        obtain ⟨hns, hname⟩ := hparts
        unfold smartResolveReportErrors
        have hg : ([seg] : List Segment).getLast? = some seg := rfl
        rw [hg]
        dsimp only
        rw [if_pos hst, hname]
        rw [if_neg (show ¬ (((("Self" : String) == "this" || ("Self" : String) == "my") &&
          env.selfValueAvail) = true) by simp)]
        refine ⟨_, rfl, rfl, rfl, rfl, ?_, ?_⟩
        · simp
        · intro it hit
          simp only [List.nil_append, List.mem_singleton] at hit
          subst hit
          rfl

theorem self_keyword_short_circuit_witness :
    ∃ r, smartResolveReportErrors wPlainEnv [⟨"self", ⟨0, 1, false⟩, false⟩] ⟨0, 1, false⟩
        .pat none = some r ∧
      r.candidates = [] ∧ r.stages = [] ∧ r.err.code = "E0424" ∧
      DiagItem.spanLabel ⟨0, 1, false⟩
        (match PathSource.pat with
         | .pat => "`self` value is a keyword and may not be bound to variables or shadowed"
         | _ => "`self` value is a keyword only available in methods with a `self` parameter")
        ∈ r.err.sub ∧
      (∀ f, wPlainEnv.dm.currentFunction = some f →
        DiagItem.spanLabel f.span
          (if f.hasSelfParam then
            "this function has a `self` parameter, but a macro invocation can only access identifiers it receives from parameters"
           else "this function doesn\x27t have a `self` parameter") ∈ r.err.sub) ∧
      (∀ it ∈ r.err.sub, it.isSuggestionLike = false) :=
  (self_keyword_short_circuit wPlainEnv [⟨"self", ⟨0, 1, false⟩, false⟩] ⟨0, 1, false⟩
    .pat none).1 (by decide)

/-! ## Claim C4: ordering of the typo engine and the contextual dispatch -/

theorem smartResolveTail_stages (env : Env) (path : List Segment)
    (span baseSpan identSpan : Span) (source : PathSource) (res : Option Res)
    (pathStr fallbackLabel : String) (couldBeExpr : Bool) (err : ErrState)
    (candidates : List ImportSuggestion) :
    (smartResolveTail env path span baseSpan identSpan source res pathStr fallbackLabel
      couldBeExpr err candidates).stages =
      match res with
      | some _ => [Stage.typoLookup, Stage.contextHelp]
      | none => [Stage.typoLookup] := by
  unfold smartResolveTail
  cases res with
  | none =>
    dsimp only
    repeat' split
    all_goals rfl
  | some r0 =>
    dsimp only
    repeat' split
    all_goals rfl

/-- Claim C4 (amended): the contextual-heuristic dispatch is entered only
when the lookup resolved (a resolution result is present), but the Typo
Suggestion Engine is *not* reserved for unresolved lookups: on every
diagnosis that reaches the tail it runs first, unconditionally — for
resolved and unresolved lookups alike — and the dispatch, when entered, is
entered after it. -/
theorem context_dispatch_only_for_resolved_after_typo (env : Env)
    (path : List Segment) (span : Span) (source : PathSource) (res : Option Res)
    (r : SmartResolved)
    (h : smartResolveReportErrors env path span source res = some r) :
    (r.stages = [] ∨ r.stages = [Stage.typoLookup] ∨
     r.stages = [Stage.typoLookup, Stage.contextHelp]) ∧
    (Stage.contextHelp ∈ r.stages →
      res.isSome = true ∧ r.stages = [Stage.typoLookup, Stage.contextHelp]) := by
  unfold smartResolveReportErrors at h
  cases hg : path.getLast? with
  | none => rw [hg] at h; cases h
  | some lastSeg =>
    rw [hg] at h
    dsimp only at h
    by_cases h1 : isSelfType path (pathSourceNamespace source) = true
    · rw [if_pos h1] at h
      cases h
      exact ⟨Or.inl rfl, by intro hc; simp at hc⟩
    · rw [if_neg h1] at h
      by_cases h2 : isSelfValue path (pathSourceNamespace source) = true
      · rw [if_pos h2] at h
        cases h
        exact ⟨Or.inl rfl, by intro hc; simp at hc⟩
      · rw [if_neg h2] at h
        by_cases h3 : (path.length = 1 && env.selfTypeAvail) = true
        · rw [if_pos h3] at h
          cases hac : env.assocCandidate with
          | some cand =>
            rw [hac] at h
            dsimp only at h
            cases h
            exact ⟨Or.inl rfl, by intro hc; simp at hc⟩
          | none =>
            rw [hac] at h
            dsimp only at h
            cases hch : callHasSelfArg source with
            | some x =>
              obtain ⟨a, b⟩ := x
              rw [hch] at h
              dsimp only at h
              cases h
              exact ⟨Or.inl rfl, by intro hc; simp at hc⟩
            | none =>
              rw [hch] at h
              dsimp only at h
              cases h
              rw [smartResolveTail_stages]
              cases res with
              | some r0 => exact ⟨Or.inr (Or.inr rfl), fun _ => ⟨rfl, rfl⟩⟩
              | none => exact ⟨Or.inr (Or.inl rfl), fun hc => absurd hc (by decide)⟩
        · rw [if_neg h3] at h
          cases h
          rw [smartResolveTail_stages]
          cases res with
          | some r0 => exact ⟨Or.inr (Or.inr rfl), fun _ => ⟨rfl, rfl⟩⟩
          | none => exact ⟨Or.inr (Or.inl rfl), fun hc => absurd hc (by decide)⟩

/-- The counterexample environment for Claim C4: one rib with a binding `y`
one edit away from the failing name `x`, every resolution accepted by the
filter, and a resolution present (a bang macro, so the first dispatch rule
fires). -/
def wC4Env : Env :=
  ⟨"x".toList, ⟨[], none, []⟩,
   (fun _ => [⟨[("y", Res.Def .Fn ⟨0, 1⟩)], .OtherRibKind⟩]),
   none, none, ⟨⟨0, 0⟩, []⟩, (fun _ => true), "value", (fun _ => "E0425"), (fun _ => "fn"),
   false, false, [], [], none, false, false, (fun _ => none), (fun _ => none), [],
   ⟨none, none, none, false⟩⟩

/-- The failing path of the Claim C4 counterexample. -/
def wC4Path : List Segment := [⟨"x", ⟨0, 1, false⟩, false⟩]

/-- The resolved-but-mismatched resolution of the Claim C4 counterexample. -/
def wC4Res : Res := Res.Def (.macroKind .Bang) ⟨0, 9⟩

/-- The full diagnosis the counterexample produces: the typo suggestion for
`y` is attached *before* the context-dependent macro help, and both tail
stages ran. -/
def wC4Result : SmartResolved :=
  ⟨⟨⟨0, 1, false⟩, "expected value, found fn `x`", "E0425",
    [DiagItem.spanSuggestion ⟨0, 1, false⟩ "a fn with a similar name exists" "y"
      .MaybeIncorrect,
     DiagItem.spanSuggestionVerbose ⟨1, 1, false⟩ "use `!` to invoke the macro" "!"
      .MaybeIncorrect]⟩,
   [], [Stage.typoLookup, Stage.contextHelp]⟩

/-- Claim C4 (counterexample to the claim as stated): the lookup *did*
resolve (`res` is present), yet the Typo Suggestion Engine ran — its stage
is recorded and its suggestion is the *first* attached sub-diagnostic,
before the contextual rule's help — so the engine is not reserved for
unresolved lookups, and the dispatch is not tried before it. -/
theorem typo_engine_runs_before_dispatch_on_resolved_lookup :
    (some wC4Res).isSome = true ∧
    smartResolveReportErrors wC4Env wC4Path ⟨0, 1, false⟩ .pat (some wC4Res) =
      some wC4Result := by
  constructor
  · rfl
  · decide

theorem context_dispatch_stage_witness :
    (wC4Result.stages = [] ∨ wC4Result.stages = [Stage.typoLookup] ∨
     wC4Result.stages = [Stage.typoLookup, Stage.contextHelp]) ∧
    (Stage.contextHelp ∈ wC4Result.stages →
      (some wC4Res).isSome = true ∧
      wC4Result.stages = [Stage.typoLookup, Stage.contextHelp]) :=
  context_dispatch_only_for_resolved_after_typo wC4Env wC4Path ⟨0, 1, false⟩ .pat
    (some wC4Res) wC4Result (by decide)

end Resolve
